import Mathlib

/-!
The package `renderer` of go-quill-escape-renderer: a shallow embedding of `renderer.go`.

The renderer turns a byte stream of UTF-8 text interleaved with ANSI escape
sequences into a sequence of Quill delta operations.  This file embeds the
code of `renderer.go` as Lean functions and proves properties of it.

Conventions of the embedding:

* a Go `byte` is a `Nat` below 256, a `[]byte` is a `List Nat`;
* a Go `rune` is a `Nat` (the code never produces a negative rune);
* a Go `int` is an `Int`; where the code can overflow 64 bits the wrap is explicit;
* a Go `string` holding text of the stream is the list of its bytes, a Go
  `string` holding an attribute name or a colour is a Lean `String`;
* the channel `r.c` is the list of operations sent on it, in order;
* the receiver `r *Renderer` is passed and returned explicitly.
-/

namespace renderer

/-! ## The standard library: `unicode/utf8` -/

/-- The constant `utf8.RuneError`, U+FFFD. -/
def RuneError : Nat := 0xFFFD

/-- A continuation byte, `locb <= b <= hicb`. -/
def isCont (b : Nat) : Bool := 0x80 ≤ b && b ≤ 0xBF

/-- Go's `utf8.DecodeRune`, returning the rune and its width in bytes.  The table
`first` and the accept ranges of the library are written out as comparisons on
the first byte, the masks and shifts as `%` and `*`:
`p0&mask2 = p0 % 32`, `b&maskx = b % 64`, `x<<6 = x * 64`. -/
def DecodeRune : List Nat → Nat × Nat
  | [] => (RuneError, 0)
  | p0 :: rest =>
    if p0 < 0x80 then (p0, 1)
    else if p0 < 0xC2 then (RuneError, 1)
    else if p0 < 0xE0 then
      -- two bytes, second in 80..BF
      match rest with
      | b1 :: _ =>
        if isCont b1 then ((p0 % 32) * 64 + b1 % 64, 2) else (RuneError, 1)
      | _ => (RuneError, 1)
    else if p0 < 0xF0 then
      -- three bytes; E0 wants A0..BF and ED wants 80..9F as second byte
      match rest with
      | b1 :: b2 :: _ =>
        let lo := if p0 = 0xE0 then 0xA0 else 0x80
        let hi := if p0 = 0xED then 0x9F else 0xBF
        if b1 < lo || hi < b1 then (RuneError, 1)
        else if !isCont b2 then (RuneError, 1)
        else ((p0 % 16) * 4096 + (b1 % 64) * 64 + b2 % 64, 3)
      | _ => (RuneError, 1)
    else if p0 < 0xF5 then
      -- four bytes; F0 wants 90..BF and F4 wants 80..8F as second byte
      match rest with
      | b1 :: b2 :: b3 :: _ =>
        let lo := if p0 = 0xF0 then 0x90 else 0x80
        let hi := if p0 = 0xF4 then 0x8F else 0xBF
        if b1 < lo || hi < b1 then (RuneError, 1)
        else if !isCont b2 then (RuneError, 1)
        else if !isCont b3 then (RuneError, 1)
        else ((p0 % 8) * 262144 + (b1 % 64) * 4096 + (b2 % 64) * 64 + b3 % 64, 4)
      | _ => (RuneError, 1)
    else (RuneError, 1)

/-- A Unicode scalar value: what a valid UTF-8 sequence encodes. -/
def isScalar (c : Nat) : Bool := c < 0xD800 || (0xE000 ≤ c && c < 0x110000)

/-- The UTF-8 encoding of one rune, as the conversion `string(rune)` produces it:
a rune that is not a scalar value is encoded as U+FFFD. -/
def encodeRune (c : Nat) : List Nat :=
  if c < 0x80 then [c]
  else if c < 0x800 then [0xC0 + c / 64, 0x80 + c % 64]
  else if !isScalar c then [0xEF, 0xBF, 0xBD]
  else if c < 0x10000 then [0xE0 + c / 4096, 0x80 + c / 64 % 64, 0x80 + c % 64]
  else [0xF0 + c / 262144, 0x80 + c / 4096 % 64, 0x80 + c / 64 % 64, 0x80 + c % 64]

/-- The conversion `string(rs)` of a `[]rune`. -/
def encodeRunes (rs : List Nat) : List Nat := rs.flatMap encodeRune

/-- Go's `utf8.Valid`: the bytes are a sequence of well-formed encodings. An
encoded U+FFFD is well-formed; only a decoding error of width 1 is not. -/
def utf8Valid : Nat → List Nat → Bool
  | 0, p => p.isEmpty
  | fuel + 1, p =>
    if p.isEmpty then true
    else
      let d := DecodeRune p
      if d.1 = RuneError ∧ d.2 = 1 then false else utf8Valid fuel (p.drop d.2)

/-- The call `utf8.Valid(p)`. -/
def Valid (p : List Nat) : Bool := utf8Valid p.length p

/-! ## The standard library: `strconv`, `strings`, `fmt` -/

/-- The `error` values the code returns. -/
inductive GoError where
  /-- The error `Invalid UTF-8 sequence!` of `peekRune`. -/
  | invalidUTF8
  /-- The error of `strconv.Atoi`: not a number, or out of the range of `int`. -/
  | atoi
  /-- The error `Image data is not in UTF-8 format!`. -/
  | imageNotUTF8
  /-- The error `Not enough params to set-color(38)!`. -/
  | notEnoughParams
  /-- The error `Unsupported set-color(38) mode`. -/
  | unsupportedMode (mode : Int)
  /-- The error `Unsupported SGR parameter`. -/
  | unsupportedSGR (v : Int)
  /-- The error `Invalid CSI command`. -/
  | invalidCSI (command : Nat)
  deriving DecidableEq, Repr

/-- An ASCII decimal digit. -/
def isDigit (c : Nat) : Bool := 0x30 ≤ c && c ≤ 0x39

/-- The value of a run of decimal digits. -/
def digitsValue (ds : List Nat) : Nat := ds.foldl (fun n c => n * 10 + (c - 0x30)) 0

/-- Go's `strconv.Atoi` on the string of the runes `s`: an optional sign, then at
least one decimal digit and nothing else; the value must fit a 64-bit `int`.
A rune that is not ASCII becomes bytes that are not digits, so it is an error
like any other non-digit. -/
def Atoi (s : List Nat) : Except GoError Int :=
  let neg := s.head? = some 0x2D
  let ds := if s.head? = some 0x2D ∨ s.head? = some 0x2B then s.tail else s
  if ds.isEmpty || !ds.all isDigit then .error .atoi
  else if neg then
    if digitsValue ds ≤ 2 ^ 63 then .ok (-(digitsValue ds : Int)) else .error .atoi
  else
    if digitsValue ds < 2 ^ 63 then .ok (digitsValue ds : Int) else .error .atoi

/-- Go's `strings.Split(s, ";")`: the pieces between the semicolons; an empty
string gives one empty piece. -/
def splitSemi : List Nat → List (List Nat)
  | [] => [[]]
  | c :: cs =>
    if c = 0x3B then [] :: splitSemi cs
    else
      match splitSemi cs with
      | h :: t => (c :: h) :: t
      | [] => [[c]]

/-- Two's complement wrap of a 64-bit `int`. -/
def wrap64 (x : Int) : Int := (x + 2 ^ 63) % 2 ^ 64 - 2 ^ 63

/-- Left padding with the character `0` up to the width `w`. -/
def padZero (w : Nat) (ds : List Char) : List Char :=
  List.replicate (w - ds.length) '0' ++ ds

/-- The verb `%06x` of `fmt.Sprintf` on an `int`: lowercase hexadecimal, padded with
zeros to six characters; a negative number has a leading minus sign that counts
in the width. -/
def sprintf06x (n : Int) : String :=
  if n < 0 then String.mk ('-' :: padZero 5 (Nat.toDigits 16 (-n).toNat))
  else String.mk (padZero 6 (Nat.toDigits 16 n.toNat))

/-! ## `Palette` -/

/-- The struct `Palette`. -/
structure Palette where
  Black : String
  Red : String
  Green : String
  Yellow : String
  Blue : String
  Magenta : String
  Cyan : String
  White : String
  BrightBlack : String
  BrightRed : String
  BrightGreen : String
  BrightYellow : String
  BrightBlue : String
  BrightMagenta : String
  BrightCyan : String
  BrightWhite : String
  deriving DecidableEq, Repr

/-- The function `DefaultPalette`. -/
def DefaultPalette : Palette where
  Black := "#000000"
  Red := "#cd0000"
  Green := "#00cd00"
  Yellow := "#cdcd00"
  Blue := "#0000ee"
  Magenta := "#cd00cd"
  Cyan := "#00cdcd"
  White := "#e5e5e5"
  BrightBlack := "#7f7f7f"
  BrightRed := "#ff0000"
  BrightGreen := "#00ff00"
  BrightYellow := "#ffff00"
  BrightBlue := "#5c5cff"
  BrightMagenta := "#ff00ff"
  BrightCyan := "#00ffff"
  BrightWhite := "#ffffff"

/-- The variable `cube6Values`. -/
def cube6Values : List String := ["00", "5f", "87", "af", "d7", "ff"]

/-- The method `Palette.Color`. -/
def Palette.Color (p : Palette) (i : Int) : String :=
  if i = 0 then p.Black
  else if i = 1 then p.Red
  else if i = 2 then p.Green
  else if i = 3 then p.Yellow
  else if i = 4 then p.Blue
  else if i = 5 then p.Magenta
  else if i = 6 then p.Cyan
  else if i = 7 then p.White
  else ""

/-- The method `Palette.HighIntensityColor`. -/
def Palette.HighIntensityColor (p : Palette) (i : Int) : String :=
  if i = 0 then p.BrightBlack
  else if i = 1 then p.BrightRed
  else if i = 2 then p.BrightGreen
  else if i = 3 then p.BrightYellow
  else if i = 4 then p.BrightBlue
  else if i = 5 then p.BrightMagenta
  else if i = 6 then p.BrightCyan
  else if i = 7 then p.BrightWhite
  else ""

/-! ## The style map -/

/-- A non-nil `interface{}` value stored in a style map: `true` or a colour string. -/
inductive Value where
  | bool (b : Bool)
  | str (s : String)
  deriving DecidableEq, Repr

/-- The map `map[string]interface{}` of a style, as an association list with at
most one entry per key. The nil map and the empty map are both `[]`. -/
abbrev Style := List (String × Value)

/-- The lookup `style[k]`. -/
def Style.get (s : Style) (k : String) : Option Value := s.lookup k

/-- The method `clearStyle`: `r.currentStyle = nil`. -/
def clearStyle : Style := []

/-- The method `setStyle`: a copy of the current style in which `name` is set to
`value`, or removed when `value` is nil (`none`) or the empty string. -/
def setStyle (currentStyle : Style) (name : String) (value : Option Value) : Style :=
  let newStyle := currentStyle.filter (fun kv => kv.1 ≠ name)
  match value with
  | none => newStyle
  | some (Value.str "") => newStyle
  | some v => (name, v) :: newStyle

/-! ## `handleCSI` -/

/-- The red index of the colour cube, as line 330 computes it. -/
def cubeR (colorInt : Int) : Int := Int.tmod (Int.tdiv (Int.tdiv (colorInt - 16) 6) 6) 6

/-- The green index of the colour cube, line 329. -/
def cubeG (colorInt : Int) : Int := Int.tmod (Int.tdiv (colorInt - 16) 6) 6

/-- The blue index of the colour cube, line 328. -/
def cubeB (colorInt : Int) : Int := Int.tmod (colorInt - 16) 6

/-- The string `actualColor` of the clause `38;5;colorInt`, lines 322 to 334. -/
def indexedColor (pal : Palette) (colorInt : Int) : String :=
  if colorInt < 8 then pal.Color colorInt
  else if colorInt < 16 then pal.HighIntensityColor (colorInt - 8)
  else if colorInt < 232 then
    "#" ++ cube6Values.getD (cubeR colorInt).toNat "" ++ cube6Values.getD (cubeG colorInt).toNat ""
      ++ cube6Values.getD (cubeB colorInt).toNat ""
  else "#" ++ sprintf06x (wrap64 (0x80808 + (colorInt - 232) * 0xa0a0a))

/-- The string `actualColor` of the clause `38;2;r;g;b`, lines 340 to 344: each
component is masked with `0xFF`, which on a two's complement `int` is the
remainder modulo 256, then the three are packed with shifts and ors. -/
def trueColor (r g b : Int) : String :=
  let red := (r % 256).toNat
  let g := (g % 256).toNat
  let b := (b % 256).toNat
  "#" ++ sprintf06x (((red <<< 16) ||| (g <<< 8) ||| b : Nat) : Int)

/-- The loop `for i < len(params)` of `handleCSI`. The list holds the parameters
from index `i - skip` on: `skip` counts the parameters at its front that the
clause before has read already by advancing `i`. It returns the style when the
loop stops and the error it stops with. In an iteration `v` is `params[i]` and
`rest` holds `params[i+1]` and what follows, so after `i = i + 1` the source's
`params[i]` is `rest[0]`. -/
def sgrLoop (pal : Palette) : List Int → Nat → Style → Style × Option GoError
  | [], _, s => (s, none)
  | _ :: rest, skip + 1, s => sgrLoop pal rest skip s
  | v :: rest, 0, s =>
    if v = 1 then
      if 0 < rest.length ∧ 30 ≤ rest.headD 0 ∧ rest.headD 0 ≤ 37 then
        -- previousIsOne = true, v = params[i], and the switch reaches the case 30..37
        sgrLoop pal rest 1
          (setStyle s "color" (some (.str (pal.HighIntensityColor (rest.headD 0 - 30)))))
      else sgrLoop pal rest 0 (setStyle s "bold" (some (.bool true)))
    else if v = 0 then sgrLoop pal rest 0 clearStyle
    else if v = 3 then sgrLoop pal rest 0 (setStyle s "italic" (some (.bool true)))
    else if v = 4 then sgrLoop pal rest 0 (setStyle s "underline" (some (.bool true)))
    else if v = 21 then sgrLoop pal rest 0 (setStyle s "bold" none)
    else if v = 22 then sgrLoop pal rest 0 (setStyle (setStyle s "bold" none) "color" none)
    else if v = 23 then sgrLoop pal rest 0 (setStyle s "italic" none)
    else if v = 24 then sgrLoop pal rest 0 (setStyle s "underline" none)
    else if 30 ≤ v ∧ v ≤ 37 then
      -- previousIsOne = false
      sgrLoop pal rest 0 (setStyle s "color" (some (.str (pal.Color (v - 30)))))
    else if v = 38 then
      if rest.length ≤ 0 then (s, some .notEnoughParams)
      else if rest.getD 0 0 = 5 then
        if rest.length ≤ 1 then (s, some .notEnoughParams)
        else
          sgrLoop pal rest 2 (setStyle s "color" (some (.str (indexedColor pal (rest.getD 1 0)))))
      else if rest.getD 0 0 = 2 then
        if 1 + 3 > rest.length then (s, some .notEnoughParams)
        else
          sgrLoop pal rest 4 (setStyle s "color"
            (some (.str (trueColor (rest.getD 1 0) (rest.getD 2 0) (rest.getD 3 0)))))
      else (s, some (.unsupportedMode (rest.getD 0 0)))
    else (s, some (.unsupportedSGR v))

/-- The loop of `handleCSI` from `i = 0`. -/
def sgr (pal : Palette) (params : List Int) (s : Style) : Style × Option GoError :=
  sgrLoop pal params 0 s

/-- The loop that converts the pieces of the parameter string with `Atoi`. -/
def parseParams : List (List Nat) → Except GoError (List Int)
  | [] => .ok []
  | v :: vs =>
    match Atoi v with
    | .error e => .error e
    | .ok vi =>
      match parseParams vs with
      | .error e => .error e
      | .ok params => .ok (vi :: params)

/-- The method `handleCSI`: the new `r.currentStyle` and the returned error.
`data` is the run of runes after `ESC [` up to and with the final one; the
caller passes a non-empty `data`. -/
def handleCSI (pal : Palette) (currentStyle : Style) (data : List Nat) : Style × Option GoError :=
  let command := data.getLastD 0
  let paramRunes := data.dropLast.takeWhile (fun v => 0x30 ≤ v && v < 0x40)
  match parseParams (splitSemi paramRunes) with
  | .error e => (currentStyle, some e)
  | .ok params =>
    if command = 0x6D then
      sgr pal (if params.length = 0 then [0] else params) currentStyle
    else (currentStyle, some (.invalidCSI command))

/-! ## The renderer -/

/-- The struct `Renderer` without its channel, which is modelled by the list of
operations sent. -/
structure Renderer where
  left : List Nat
  currentStyle : Style
  palette : Palette
  deriving DecidableEq, Repr

/-- The function `NewRendererWithPalette`. -/
def NewRendererWithPalette (palette : Palette) : Renderer :=
  { left := [], currentStyle := [], palette := palette }

/-- The function `NewRenderer`. -/
def NewRenderer : Renderer := NewRendererWithPalette DefaultPalette

/-- The delta sent on the channel: `Insert(text, attributes)`, a Text Run, or
`InsertEmbed(Embed{Key, Value}, attributes)`, an Embed Run. -/
inductive Op where
  | insert (text : List Nat) (attributes : Style)
  | insertEmbed (key : String) (value : List Nat) (attributes : Style)
  deriving DecidableEq, Repr

/-- How a call of `Write` ends: it returns `(n, nil)`, it returns `(0, err)`, or
a slice expression is out of range and the Go runtime panics. -/
inductive Ret where
  | ok (n : Nat)
  | error (e : GoError)
  | panicked
  deriving DecidableEq, Repr

/-- The renderer after a call of `Write`, the operations the call sent on the
channel, in order, and how the call ended. -/
structure Result where
  r : Renderer
  sent : List Op
  ret : Ret
  deriving DecidableEq, Repr

/-- The method `peekRune`: `(ch, size)` or the error. -/
def peekRune (left : List Nat) (start : Nat) : Except GoError (Nat × Nat) :=
  let d := DecodeRune (left.drop start)
  if d.1 = RuneError then
    if (left.drop start).length < 4 then .ok (0, 0) else .error .invalidUTF8
  else .ok (d.1, d.2)

/-- The loop of `peekTill` with `fuel` iterations left; `none` when they run out. -/
def peekTillLoop (left : List Nat) (start endCharStart endCharExclusiveEnd : Nat) :
    Nat → List Nat → Nat → Option (Except GoError (List Nat × Nat))
  | 0, _, _ => none
  | fuel + 1, rs, peekBytes =>
    if start + peekBytes < left.length then
      match peekRune left (start + peekBytes) with
      | .error e => some (.error e)
      | .ok (ch, size) =>
        if size = 0 then some (.ok ([], 0))
        else if endCharStart ≤ ch ∧ ch < endCharExclusiveEnd then
          some (.ok (rs ++ [ch], peekBytes + size))
        else peekTillLoop left start endCharStart endCharExclusiveEnd fuel (rs ++ [ch])
          (peekBytes + size)
    else some (.ok ([], 0))

/-- The method `peekTill`: the runes from `start` up to and with the first one in
the range, and their width in bytes; `([], 0)` when the buffer ends before. Every
iteration advances by at least one byte, so the length of the buffer is fuel enough. -/
def peekTill (left : List Nat) (start endCharStart endCharExclusiveEnd : Nat) :
    Option (Except GoError (List Nat × Nat)) :=
  peekTillLoop left start endCharStart endCharExclusiveEnd (left.length + 1) [] 0

/-- The text run `Insert(string(rs), r.currentStyle)` sent when `rs` is not empty. -/
def flush (rs : List Nat) (style : Style) (sent : List Op) : List Op :=
  if rs.length > 0 then sent ++ [Op.insert (encodeRunes rs) style] else sent

/-- The loops of `Write` after the chunk has been appended to `r.left`, with `fuel`
iterations of the inner loop left; `n` is `len(p)`, `rs` the runes collected so
far and `sent` the operations sent so far. The inner loop ends without a
return only when `r.left` is empty, so after the final flush the outer loop
ends as well. -/
def writeLoop (n : Nat) : Nat → Renderer → List Nat → List Op → Option Result
  | 0, _, _, _ => none
  | fuel + 1, r, rs, sent =>
    if r.left.length > 0 then
      match peekRune r.left 0 with
      | .error e => some ⟨r, sent, .error e⟩
      | .ok (ch, size) =>
        if size = 0 then some ⟨r, sent, .ok n⟩
        else if ch = 0x1b then
          let sent := flush rs r.currentStyle sent
          match peekRune r.left size with
          | .error e => some ⟨r, sent, .error e⟩
          | .ok (ch2, size2) =>
            if size2 = 0 then some ⟨r, sent, .ok n⟩
            else if ch2 = 0x5B then
              match peekTill r.left (size + size2) 0x40 0x7F with
              | none => none
              | some (.error e) => some ⟨r, sent, .error e⟩
              | some (.ok (data, peekBytes)) =>
                if peekBytes = 0 then some ⟨r, sent, .ok n⟩
                else
                  -- the error returned by handleCSI is dropped
                  let style := (handleCSI r.palette r.currentStyle data).1
                  writeLoop n fuel
                    { r with currentStyle := style, left := r.left.drop (size + size2 + peekBytes) }
                    [] sent
            else if ch2 = 0x55 then
              match peekTill r.left (size + size2) 0x3B (0x3B + 1) with
              | none => none
              | some (.error e) => some ⟨r, sent, .error e⟩
              | some (.ok (data, peekBytes)) =>
                if peekBytes = 0 then some ⟨r, sent, .ok n⟩
                else
                  match Atoi data.dropLast with
                  | .error e => some ⟨r, sent, .error e⟩
                  | .ok length =>
                    let imageStart := size + size2 + peekBytes
                    let imageEnd := wrap64 ((imageStart : Int) + length)
                    if (r.left.length : Int) < imageEnd then some ⟨r, sent, .ok n⟩
                    else if imageEnd < (imageStart : Int) then
                      -- r.left[imageStart : imageEnd] with imageEnd below imageStart
                      some ⟨r, sent, .panicked⟩
                    else
                      let imageData := (r.left.take imageEnd.toNat).drop imageStart
                      if !Valid imageData then some ⟨r, sent, .error .imageNotUTF8⟩
                      else
                        writeLoop n fuel { r with left := r.left.drop imageEnd.toNat } []
                          (sent ++ [Op.insertEmbed "image" imageData r.currentStyle])
            else writeLoop n fuel { r with left := r.left.drop (size + size2) } [] sent
        else writeLoop n fuel { r with left := r.left.drop size } (rs ++ [ch]) sent
    else some ⟨r, flush rs r.currentStyle sent, .ok n⟩

/-- The method `Write`: the chunk `p` is appended to `r.left` and the loops run.
Every iteration of the inner loop that does not return removes at least one
byte from `r.left`, so one more than its length is fuel enough. -/
def Write (r : Renderer) (p : List Nat) : Option Result :=
  writeLoop p.length ((r.left ++ p).length + 1) { r with left := r.left ++ p } [] []

/-- The texts of the Text Runs among operations, concatenated in order. -/
def textOf : List Op → List Nat
  | [] => []
  | Op.insert t _ :: ops => t ++ textOf ops
  | Op.insertEmbed _ _ _ :: ops => textOf ops

/-! ## Vocabulary of the statements -/

/-- A rune of plain text that the renderer accepts: a scalar value other than ESC
and other than U+FFFD. -/
def plainRune (c : Nat) : Bool := isScalar c && c != 0x1b && c != RuneError

/-- The decimal digits of a number, as bytes. -/
def decimalBytes (n : Nat) : List Nat := (Nat.toDigits 10 n).map Char.toNat

/-- The `k` low hexadecimal digits of `n`, most significant first, in lowercase. -/
def hexFixed : Nat → Nat → List Char
  | 0, _ => []
  | k + 1, n => hexFixed k (n / 16) ++ [Nat.digitChar (n % 16)]

/-- A lowercase hexadecimal digit. -/
def isLowerHex (c : Char) : Bool :=
  (0x30 ≤ c.toNat && c.toNat ≤ 0x39) || (0x61 ≤ c.toNat && c.toNat ≤ 0x66)

/-- The value of a lowercase hexadecimal digit. -/
def hexDigitValue (c : Char) : Nat :=
  if c.toNat ≤ 0x39 then c.toNat - 0x30 else c.toNat - 0x61 + 10

/-- The number a string of hexadecimal digits encodes. -/
def hexValue (ds : List Char) : Nat := ds.foldl (fun acc d => acc * 16 + hexDigitValue d) 0

/-- The two lowercase hexadecimal digits of a byte. -/
def hexByte (n : Nat) : List Char := [Nat.digitChar (n / 16), Nat.digitChar (n % 16)]

/-- The embed unit on the wire: `ESC U <decimal length> ;` and the payload. -/
def embedUnit (payload : List Nat) : List Nat :=
  [0x1b, 0x55] ++ decimalBytes payload.length ++ [0x3B] ++ payload

/-- The four attribute names the renderer uses. -/
def styleKeys : List String := ["bold", "italic", "underline", "color"]

/-- The invariant of the style map: every key is one of the four attribute names
and no key is mapped to the empty string. A value of the map is `true` or a
string; the nil value is not a `Value`, `setStyle` takes it as `none`. -/
def StyleOK (s : Style) : Prop := ∀ kv ∈ s, kv.1 ∈ styleKeys ∧ kv.2 ≠ Value.str ""

instance (s : Style) : Decidable (StyleOK s) := by
  unfold StyleOK
  infer_instance

/-- The states of a renderer with the palette `pal` that are reachable from the fresh
one by calls of `Write`, whatever they return. -/
inductive Reachable (pal : Palette) : Renderer → Prop where
  | fresh : Reachable pal (NewRendererWithPalette pal)
  | write (r : Renderer) (p : List Nat) (res : Result) :
      Reachable pal r → Write r p = some res → Reachable pal res.r

/-- A colour of the form `#` and six lowercase hexadecimal digits. -/
def isHexColor (s : String) : Bool :=
  match s.data with
  | '#' :: ds => ds.length == 6 && ds.all isLowerHex
  | _ => false

/-- All sixteen entries of a palette have the form `#` and six lowercase
hexadecimal digits. -/
def Palette.wellFormed (p : Palette) : Bool :=
  isHexColor p.Black && isHexColor p.Red && isHexColor p.Green && isHexColor p.Yellow &&
  isHexColor p.Blue && isHexColor p.Magenta && isHexColor p.Cyan && isHexColor p.White &&
  isHexColor p.BrightBlack && isHexColor p.BrightRed && isHexColor p.BrightGreen &&
  isHexColor p.BrightYellow && isHexColor p.BrightBlue && isHexColor p.BrightMagenta &&
  isHexColor p.BrightCyan && isHexColor p.BrightWhite

/-! ## UTF-8: decoding and encoding are inverse to each other -/

theorem DecodeRune_encodeRune (c : Nat) (rest : List Nat) (hc : isScalar c = true) :
    DecodeRune (encodeRune c ++ rest) = (c, (encodeRune c).length) := by
  simp only [isScalar, Bool.or_eq_true, Bool.and_eq_true, decide_eq_true_eq] at hc
  unfold encodeRune
  by_cases h1 : c < 0x80
  · simp [h1, DecodeRune]
  by_cases h2 : c < 0x800
  · have a1 : ¬ (0xC0 + c / 64 < 0x80) := by omega
    have a2 : ¬ (0xC0 + c / 64 < 0xC2) := by omega
    have a3 : 0xC0 + c / 64 < 0xE0 := by omega
    have a4 : isCont (0x80 + c % 64) = true := by
      simp only [isCont, Bool.and_eq_true, decide_eq_true_eq]; omega
    simp only [h1, h2, if_false, if_true, List.cons_append, List.nil_append, DecodeRune, a1, a2, a3,
      a4, List.length_cons, List.length_nil]
    congr 1
    omega
  have hs : isScalar c = true := by
    simp only [isScalar, Bool.or_eq_true, Bool.and_eq_true, decide_eq_true_eq]; exact hc
  by_cases h3 : c < 0x10000
  · have a1 : ¬ (0xE0 + c / 4096 < 0x80) := by omega
    have a2 : ¬ (0xE0 + c / 4096 < 0xC2) := by omega
    have a3 : ¬ (0xE0 + c / 4096 < 0xE0) := by omega
    have a4 : 0xE0 + c / 4096 < 0xF0 := by omega
    have a5 : isCont (0x80 + c % 64) = true := by
      simp only [isCont, Bool.and_eq_true, decide_eq_true_eq]; omega
    have a6 : ¬ (0x80 + c / 64 % 64 < (if 0xE0 + c / 4096 = 0xE0 then 0xA0 else 0x80)) := by
      split_ifs <;> omega
    have a7 : ¬ ((if 0xE0 + c / 4096 = 0xED then 0x9F else 0xBF) < 0x80 + c / 64 % 64) := by
      split_ifs <;> omega
    simp only [h1, h2, h3, hs, Bool.not_true, Bool.false_eq_true, if_false, if_true,
      List.cons_append, List.nil_append, DecodeRune, a1, a2, a3, a4, a5, a6, a7,
      List.length_cons, List.length_nil, Bool.or_self, decide_False]
    congr 1
    omega
  · have a1 : ¬ (0xF0 + c / 262144 < 0x80) := by omega
    have a2 : ¬ (0xF0 + c / 262144 < 0xC2) := by omega
    have a3 : ¬ (0xF0 + c / 262144 < 0xE0) := by omega
    have a4 : ¬ (0xF0 + c / 262144 < 0xF0) := by omega
    have a4' : 0xF0 + c / 262144 < 0xF5 := by omega
    have a5 : isCont (0x80 + c % 64) = true := by
      simp only [isCont, Bool.and_eq_true, decide_eq_true_eq]; omega
    have a5' : isCont (0x80 + c / 64 % 64) = true := by
      simp only [isCont, Bool.and_eq_true, decide_eq_true_eq]; omega
    have a6 : ¬ (0x80 + c / 4096 % 64 < (if 0xF0 + c / 262144 = 0xF0 then 0x90 else 0x80)) := by
      split_ifs <;> omega
    have a7 : ¬ ((if 0xF0 + c / 262144 = 0xF4 then 0x8F else 0xBF) < 0x80 + c / 4096 % 64) := by
      split_ifs <;> omega
    simp only [h1, h2, h3, hs, Bool.not_true, Bool.false_eq_true, if_false, if_true,
      List.cons_append, List.nil_append, DecodeRune, a1, a2, a3, a4, a4', a5, a5', a6, a7,
      List.length_cons, List.length_nil, Bool.or_self, decide_False]
    congr 1
    omega

theorem DecodeRune_sound (p : List Nat) :
    ((DecodeRune p).1 = RuneError ∧ (DecodeRune p).2 ≤ 1) ∨
    (isScalar (DecodeRune p).1 = true ∧ (encodeRune (DecodeRune p).1).length = (DecodeRune p).2 ∧
      p = encodeRune (DecodeRune p).1 ++ p.drop (DecodeRune p).2) := by
  rcases p with _ | ⟨p0, rest⟩
  · left; simp [DecodeRune]
  unfold DecodeRune
  by_cases h1 : p0 < 0x80
  · right
    simp only [h1, if_true, encodeRune, isScalar, List.drop_succ_cons, List.drop_zero]
    refine ⟨?_, rfl, rfl⟩
    simp only [Bool.or_eq_true, decide_eq_true_eq]; omega
  by_cases h2 : p0 < 0xC2
  · left; simp [h1, h2]
  by_cases h3 : p0 < 0xE0
  · simp only [h1, h2, h3, if_true, if_false]
    rcases rest with _ | ⟨b1, rest⟩
    · left; simp
    by_cases hb1 : isCont b1 = true
    · right
      simp only [hb1, if_true]
      simp only [isCont, Bool.and_eq_true, decide_eq_true_eq] at hb1
      have e1 : ¬ ((p0 % 32) * 64 + b1 % 64 < 0x80) := by omega
      have e2 : (p0 % 32) * 64 + b1 % 64 < 0x800 := by omega
      simp only [encodeRune, e1, e2, if_true, if_false, isScalar, List.drop_succ_cons,
        List.drop_zero, List.length_cons, List.length_nil, List.cons_append, List.nil_append]
      refine ⟨?_, trivial, ?_⟩
      · simp only [Bool.or_eq_true, decide_eq_true_eq]; omega
      · congr 1
        · omega
        · congr 1; omega
    · left; simp [hb1]
  by_cases h4 : p0 < 0xF0
  · simp only [h1, h2, h3, h4, if_true, if_false]
    rcases rest with _ | ⟨b1, _ | ⟨b2, rest⟩⟩
    · left; simp
    · left; simp
    simp only
    by_cases hb1 : (decide (b1 < if p0 = 0xE0 then 0xA0 else 0x80) ||
        decide ((if p0 = 0xED then 0x9F else 0xBF) < b1)) = true
    · left; simp only [hb1, if_true]; exact ⟨trivial, le_refl _⟩
    by_cases hb2 : isCont b2 = true
    · right
      simp only [hb1, hb2, Bool.not_true, if_false, Bool.false_eq_true]
      simp only [isCont, Bool.and_eq_true, decide_eq_true_eq] at hb2
      simp only [Bool.or_eq_true, decide_eq_true_eq, not_or, not_lt] at hb1
      have hlo : 0x80 ≤ b1 := by
        have := hb1.1; split_ifs at this <;> omega
      have hhi : b1 ≤ 0xBF := by
        have := hb1.2; split_ifs at this <;> omega
      have hE0 : p0 = 0xE0 → 0xA0 ≤ b1 := by
        intro h; have := hb1.1; rw [if_pos h] at this; exact this
      have hED : p0 = 0xED → b1 ≤ 0x9F := by
        intro h; have := hb1.2; rw [if_pos h] at this; exact this
      have e1 : ¬ ((p0 % 16) * 4096 + (b1 % 64) * 64 + b2 % 64 < 0x80) := by omega
      have e2 : ¬ ((p0 % 16) * 4096 + (b1 % 64) * 64 + b2 % 64 < 0x800) := by omega
      have e3 : (p0 % 16) * 4096 + (b1 % 64) * 64 + b2 % 64 < 0x10000 := by omega
      have e4 : isScalar ((p0 % 16) * 4096 + (b1 % 64) * 64 + b2 % 64) = true := by
        simp only [isScalar, Bool.or_eq_true, Bool.and_eq_true, decide_eq_true_eq]; omega
      simp only [encodeRune, e1, e2, e3, e4, Bool.not_true, Bool.false_eq_true, if_true, if_false,
        List.drop_succ_cons, List.drop_zero, List.length_cons, List.length_nil, List.cons_append,
        List.nil_append]
      refine ⟨trivial, trivial, ?_⟩
      congr 1
      · omega
      · congr 1
        · omega
        · congr 1; omega
    · left; simp [hb1, hb2]
  by_cases h5 : p0 < 0xF5
  · simp only [h1, h2, h3, h4, h5, if_true, if_false]
    rcases rest with _ | ⟨b1, _ | ⟨b2, _ | ⟨b3, rest⟩⟩⟩
    · left; simp
    · left; simp
    · left; simp
    simp only
    by_cases hb1 : (decide (b1 < if p0 = 0xF0 then 0x90 else 0x80) ||
        decide ((if p0 = 0xF4 then 0x8F else 0xBF) < b1)) = true
    · left; simp only [hb1, if_true]; exact ⟨trivial, le_refl _⟩
    by_cases hb2 : isCont b2 = true
    · by_cases hb3 : isCont b3 = true
      · right
        simp only [hb1, hb2, hb3, Bool.not_true, if_false, Bool.false_eq_true]
        simp only [isCont, Bool.and_eq_true, decide_eq_true_eq] at hb2 hb3
        simp only [Bool.or_eq_true, decide_eq_true_eq, not_or, not_lt] at hb1
        have hlo : 0x80 ≤ b1 := by
          have := hb1.1; split_ifs at this <;> omega
        have hhi : b1 ≤ 0xBF := by
          have := hb1.2; split_ifs at this <;> omega
        have hF0 : p0 = 0xF0 → 0x90 ≤ b1 := by
          intro h; have := hb1.1; rw [if_pos h] at this; exact this
        have hF4 : p0 = 0xF4 → b1 ≤ 0x8F := by
          intro h; have := hb1.2; rw [if_pos h] at this; exact this
        have e1 : ¬ ((p0 % 8) * 262144 + (b1 % 64) * 4096 + (b2 % 64) * 64 + b3 % 64 < 0x80) := by
          omega
        have e2 : ¬ ((p0 % 8) * 262144 + (b1 % 64) * 4096 + (b2 % 64) * 64 + b3 % 64 < 0x800) := by
          omega
        have e3 : ¬ ((p0 % 8) * 262144 + (b1 % 64) * 4096 + (b2 % 64) * 64 + b3 % 64 < 0x10000) := by
          omega
        have e4 : isScalar ((p0 % 8) * 262144 + (b1 % 64) * 4096 + (b2 % 64) * 64 + b3 % 64)
            = true := by
          simp only [isScalar, Bool.or_eq_true, Bool.and_eq_true, decide_eq_true_eq]; omega
        simp only [encodeRune, e1, e2, e3, e4, Bool.not_true, Bool.false_eq_true, if_true,
          if_false, List.drop_succ_cons, List.drop_zero, List.length_cons, List.length_nil,
          List.cons_append, List.nil_append]
        refine ⟨trivial, trivial, ?_⟩
        congr 1
        · omega
        · congr 1
          · omega
          · congr 1
            · omega
            · congr 1; omega
      · left; simp [hb1, hb2, hb3]
    · left; simp [hb1, hb2]
  · left; simp [h1, h2, h3, h4, h5]

/-! ## Stepping the loops of `Write` -/

theorem encodeRune_length_pos (c : Nat) : 0 < (encodeRune c).length := by
  unfold encodeRune
  split_ifs <;> simp

theorem encodeRunes_cons (c : Nat) (cs : List Nat) :
    encodeRunes (c :: cs) = encodeRune c ++ encodeRunes cs := by
  simp [encodeRunes]

theorem encodeRunes_append (as bs : List Nat) :
    encodeRunes (as ++ bs) = encodeRunes as ++ encodeRunes bs := by
  simp [encodeRunes]

theorem peekRune_encodeRune (c : Nat) (rest : List Nat) (hc : plainRune c = true) :
    peekRune (encodeRune c ++ rest) 0 = .ok (c, (encodeRune c).length) := by
  simp only [plainRune, Bool.and_eq_true, bne_iff_ne, ne_eq] at hc
  simp [peekRune, DecodeRune_encodeRune c rest hc.1.1, hc.2]

theorem peekRune_ascii (left : List Nat) (start a : Nat) (tl : List Nat) (ha : a < 0x80)
    (h : left.drop start = a :: tl) : peekRune left start = .ok (a, 1) := by
  have : a ≠ RuneError := by simp only [RuneError]; omega
  simp [peekRune, h, DecodeRune, ha, this]

theorem writeLoop_end (n fuel : Nat) (st : Style) (pal : Palette) (rs : List Nat)
    (sent : List Op) :
    writeLoop n (fuel + 1) ⟨[], st, pal⟩ rs sent
      = some ⟨⟨[], st, pal⟩, flush rs st sent, .ok n⟩ := by
  simp [writeLoop]

theorem writeLoop_text (n : Nat) (cs : List Nat) (h : ∀ c ∈ cs, plainRune c = true) :
    ∀ (fuel : Nat) (rest : List Nat) (st : Style) (pal : Palette) (rs : List Nat) (sent : List Op),
      writeLoop n (fuel + cs.length) ⟨encodeRunes cs ++ rest, st, pal⟩ rs sent
        = writeLoop n fuel ⟨rest, st, pal⟩ (rs ++ cs) sent := by
  induction cs with
  | nil => intro fuel rest st pal rs sent; simp [encodeRunes]
  | cons c cs ih =>
    intro fuel rest st pal rs sent
    have hc : plainRune c = true := h c (List.mem_cons_self _ _)
    have hcs : ∀ c ∈ cs, plainRune c = true := fun x hx => h x (List.mem_cons_of_mem _ hx)
    have hpos := encodeRune_length_pos c
    have hne : c ≠ 0x1b := by
      simp only [plainRune, Bool.and_eq_true, bne_iff_ne, ne_eq] at hc; exact hc.1.2
    have hlen : (encodeRune c ++ (encodeRunes cs ++ rest)).length > 0 := by
      simp only [List.length_append]; omega
    have hsz : (encodeRune c).length ≠ 0 := by omega
    rw [List.length_cons, ← Nat.add_assoc, encodeRunes_cons, List.append_assoc, writeLoop]
    simp only [hlen, if_true, peekRune_encodeRune c _ hc, hsz, if_false, hne,
      List.drop_left]
    rw [ih hcs]
    simp

theorem peekTillLoop_ascii (left : List Nat) (start lo hi final : Nat) (rest : List Nat)
    (hf : final < 0x80) (hlo : lo ≤ final) (hhi : final < hi) (params : List Nat) :
    ∀ (fuel : Nat) (rs : List Nat) (pb : Nat),
      left.drop (start + pb) = params ++ final :: rest →
      (∀ b ∈ params, b < 0x80 ∧ ¬ (lo ≤ b ∧ b < hi)) →
      params.length < fuel →
      peekTillLoop left start lo hi fuel rs pb
        = some (.ok (rs ++ params ++ [final], pb + params.length + 1)) := by
  induction params with
  | nil =>
    intro fuel rs pb hd _ hfuel
    obtain ⟨fuel, rfl⟩ : ∃ k, fuel = k + 1 := ⟨fuel - 1, by simp at hfuel; omega⟩
    have hlt : start + pb < left.length := by
      by_contra hge
      rw [List.drop_eq_nil_of_le (by omega)] at hd
      simp at hd
    simp only [List.nil_append] at hd
    simp [peekTillLoop, hlt, peekRune_ascii left (start + pb) final rest hf hd, hlo, hhi]
  | cons b params ih =>
    intro fuel rs pb hd hall hfuel
    obtain ⟨fuel, rfl⟩ : ∃ k, fuel = k + 1 := ⟨fuel - 1, by simp at hfuel; omega⟩
    have hlt : start + pb < left.length := by
      by_contra hge
      rw [List.drop_eq_nil_of_le (by omega)] at hd
      simp at hd
    have hb := hall b (List.mem_cons_self _ _)
    have hd' : left.drop (start + (pb + 1)) = params ++ final :: rest := by
      rw [← Nat.add_assoc, ← List.drop_drop, hd]
      simp
    have hrec := ih fuel (rs ++ [b]) (pb + 1) hd'
      (fun x hx => hall x (List.mem_cons_of_mem _ hx))
      (by simp only [List.length_cons] at hfuel; omega)
    rw [peekTillLoop]
    simp only [hlt, if_true, peekRune_ascii left (start + pb) b _ hb.1 hd, hb.2, if_false]
    simp only [one_ne_zero, if_false, hrec, List.length_cons, List.append_assoc,
      List.singleton_append]
    congr 3
    omega

theorem peekTill_ascii (pre params rest : List Nat) (lo hi final : Nat)
    (hf : final < 0x80) (hlo : lo ≤ final) (hhi : final < hi)
    (hall : ∀ b ∈ params, b < 0x80 ∧ ¬ (lo ≤ b ∧ b < hi)) :
    peekTill (pre ++ (params ++ final :: rest)) pre.length lo hi
      = some (.ok (params ++ [final], params.length + 1)) := by
  have h := peekTillLoop_ascii (pre ++ (params ++ final :: rest)) pre.length lo hi final rest
    hf hlo hhi params ((pre ++ (params ++ final :: rest)).length + 1) [] 0
    (by simp) hall (by simp; omega)
  simpa [peekTill] using h

/-- One iteration of the inner loop at a complete CSI sequence whose parameter
bytes are below 0x40: the collected text is flushed, the style becomes what
`handleCSI` leaves, whatever error it returns, and the sequence is removed. -/
theorem writeLoop_csi (n fuel : Nat) (params rest : List Nat) (final : Nat) (st : Style)
    (pal : Palette) (rs : List Nat) (sent : List Op)
    (hp : ∀ b ∈ params, b < 0x40) (hlo : 0x40 ≤ final) (hhi : final < 0x7F) :
    writeLoop n (fuel + 1) ⟨0x1b :: 0x5B :: (params ++ final :: rest), st, pal⟩ rs sent
      = writeLoop n fuel ⟨rest, (handleCSI pal st (params ++ [final])).1, pal⟩ []
          (flush rs st sent) := by
  have hall : ∀ b ∈ params, b < 0x80 ∧ ¬ (0x40 ≤ b ∧ b < 0x7F) := by
    intro b hb; have := hp b hb; omega
  have ht := peekTill_ascii [0x1b, 0x5B] params rest 0x40 0x7F final (by omega) hlo hhi hall
  simp only [List.cons_append, List.nil_append, List.length_cons, List.length_nil] at ht
  have h0 : peekRune (0x1b :: 0x5B :: (params ++ final :: rest)) 0 = .ok (0x1b, 1) :=
    peekRune_ascii _ 0 0x1b _ (by omega) rfl
  have h1 : peekRune (0x1b :: 0x5B :: (params ++ final :: rest)) 1 = .ok (0x5B, 1) :=
    peekRune_ascii _ 1 0x5B _ (by omega) rfl
  rw [writeLoop]
  simp only [List.length_cons, Nat.zero_lt_succ, gt_iff_lt, if_true, h0, one_ne_zero, if_false,
    h1, ht, Nat.reduceAdd]
  have hdrop : List.drop (2 + (params.length + 1)) (27 :: 91 :: (params ++ final :: rest))
      = rest := by
    rw [show 2 + (params.length + 1) = (params.length + 1) + 1 + 1 by omega,
      List.drop_succ_cons, List.drop_succ_cons,
      show params ++ final :: rest = (params ++ [final]) ++ rest by simp]
    exact List.drop_left' (by simp)
  simp [hdrop]

theorem encodeRunes_length_ge (cs : List Nat) : cs.length ≤ (encodeRunes cs).length := by
  induction cs with
  | nil => simp
  | cons c cs ih =>
    have := encodeRune_length_pos c
    rw [encodeRunes_cons, List.length_append, List.length_cons]
    omega

theorem flush_cons (c : Nat) (cs : List Nat) (st : Style) (sent : List Op) :
    flush (c :: cs) st sent = sent ++ [Op.insert (encodeRunes (c :: cs)) st] := by
  simp [flush]

theorem flush_of_ne_nil (cs : List Nat) (hne : cs ≠ []) (st : Style) (sent : List Op) :
    flush cs st sent = sent ++ [Op.insert (encodeRunes cs) st] := by
  cases cs with
  | nil => exact absurd rfl hne
  | cons c cs => exact flush_cons c cs st sent

/-- Plain text: a non-empty run of scalar values other than ESC and U+FFFD, written
in one call to a renderer with an empty buffer, is sent as one Text Run with
the current style. -/
theorem Write_plainText (pal : Palette) (st : Style) (cs : List Nat) (hne : cs ≠ [])
    (h : ∀ c ∈ cs, plainRune c = true) :
    Write ⟨[], st, pal⟩ (encodeRunes cs)
      = some ⟨⟨[], st, pal⟩, [Op.insert (encodeRunes cs) st],
          .ok (encodeRunes cs).length⟩ := by
  have hlen := encodeRunes_length_ge cs
  obtain ⟨k, hk⟩ : ∃ k, (encodeRunes cs).length + 1 = (k + 1) + cs.length :=
    ⟨(encodeRunes cs).length - cs.length, by omega⟩
  have h1 := writeLoop_text (encodeRunes cs).length cs h (k + 1) [] st pal [] []
  simp only [List.append_nil, List.nil_append] at h1
  simp only [Write, List.nil_append, hk, h1, writeLoop_end, flush_of_ne_nil cs hne]

theorem setStyle_str (s : Style) (name x : String) (hx : x ≠ "") :
    setStyle s name (some (.str x)) = (name, .str x) :: s.filter (fun kv => kv.1 ≠ name) := by
  unfold setStyle
  split
  · rename_i h; cases h
  · rename_i h; simp at h; exact absurd h.symm (Ne.symm hx) 
  · rename_i h; simp at h; subst h; rfl

theorem decimalBytes_color (c : Nat) (h1 : 30 ≤ c) (h2 : c ≤ 37) :
    decimalBytes c = [0x33, c + 18] := by
  interval_cases c <;> rfl

theorem handleCSI_color (pal : Palette) (st : Style) (c : Nat) (h1 : 30 ≤ c) (h2 : c ≤ 37) :
    handleCSI pal st (decimalBytes c ++ [0x6D])
      = (setStyle st "color" (some (.str (pal.Color ((c : Int) - 30)))), none) := by
  interval_cases c <;> rfl

theorem handleCSI_reset (pal : Palette) (st : Style) :
    handleCSI pal st [0x30, 0x6D] = ([], none) := by
  rfl

/-! ## The claims about `Write` -/

/-- C1 (fails on the code): the ESC-free valid UTF-8 string `ab世`, 61 62 E4 B8 96,
split after its third byte. Both calls return `(len, nil)`, but the first call
returns at the incomplete character without sending the collected `ab`, so the
Text Runs of the two calls hold only `世`, while one call with the whole
string sends all of it. -/
theorem C1_text_before_incomplete_rune_is_lost :
    Valid ([0x61, 0x62, 0xE4] ++ [0xB8, 0x96]) = true ∧
    0x1b ∉ [0x61, 0x62, 0xE4] ++ [0xB8, 0x96] ∧
    Write NewRenderer [0x61, 0x62, 0xE4]
      = some ⟨⟨[0xE4], [], DefaultPalette⟩, [], .ok 3⟩ ∧
    Write ⟨[0xE4], [], DefaultPalette⟩ [0xB8, 0x96]
      = some ⟨⟨[], [], DefaultPalette⟩, [Op.insert [0xE4, 0xB8, 0x96] []], .ok 2⟩ ∧
    textOf ([] ++ [Op.insert [0xE4, 0xB8, 0x96] []]) ≠ [0x61, 0x62, 0xE4] ++ [0xB8, 0x96] ∧
    Write NewRenderer ([0x61, 0x62, 0xE4] ++ [0xB8, 0x96])
      = some ⟨⟨[], [], DefaultPalette⟩, [Op.insert [0x61, 0x62, 0xE4, 0xB8, 0x96] []], .ok 5⟩ := by
  decide

/-- C2 (fails on the code): the input EF BF BD, the encoding of U+FFFD, is
non-empty valid UTF-8 without ESC, but `Write` sends no Text Run for it and keeps
the three bytes in the buffer; followed by one more character, `Write` returns
the error `Invalid UTF-8 sequence!`. -/
theorem C2_replacement_character_not_rendered :
    Valid [0xEF, 0xBF, 0xBD] = true ∧ 0x1b ∉ [0xEF, 0xBF, 0xBD] ∧
    Write NewRenderer [0xEF, 0xBF, 0xBD]
      = some ⟨⟨[0xEF, 0xBF, 0xBD], [], DefaultPalette⟩, [], .ok 3⟩ ∧
    Valid [0xEF, 0xBF, 0xBD, 0x41] = true ∧
    Write NewRenderer [0xEF, 0xBF, 0xBD, 0x41]
      = some ⟨⟨[0xEF, 0xBF, 0xBD, 0x41], [], DefaultPalette⟩, [], .error .invalidUTF8⟩ := by
  decide

/-- C3 (fails on the code): the character U+FFFD has the three-byte encoding
EF BF BD. Written as EF and then BF BD, both calls return `(len, nil)`, but the
second call sends no Text Run: the decoded character equals `utf8.RuneError`
and is taken for an incomplete sequence. -/
theorem C3_split_replacement_character_not_rendered :
    isScalar 0xFFFD = true ∧ encodeRune 0xFFFD = [0xEF] ++ [0xBF, 0xBD] ∧
    Write NewRenderer [0xEF] = some ⟨⟨[0xEF], [], DefaultPalette⟩, [], .ok 1⟩ ∧
    Write ⟨[0xEF], [], DefaultPalette⟩ [0xBF, 0xBD]
      = some ⟨⟨[0xEF, 0xBF, 0xBD], [], DefaultPalette⟩, [], .ok 2⟩ := by
  decide

theorem encodeRune_length_le (c : Nat) : (encodeRune c).length ≤ 4 := by
  unfold encodeRune
  split_ifs <;> simp

/-- What holds next to C3: a character other than U+FFFD (and other than ESC) whose
encoding is split into two non-empty parts is buffered by the first call, which
sends nothing, and sent as one Text Run by the second. -/
theorem Write_split_rune (pal : Palette) (c : Nat) (a b : List Nat) (hc : plainRune c = true)
    (ha : a ≠ []) (hb : b ≠ []) (hab : encodeRune c = a ++ b) :
    Write (NewRendererWithPalette pal) a = some ⟨⟨a, [], pal⟩, [], .ok a.length⟩ ∧
    Write ⟨a, [], pal⟩ b
      = some ⟨⟨[], [], pal⟩, [Op.insert (encodeRune c) []], .ok b.length⟩ := by
  have hsc : isScalar c = true := by
    simp only [plainRune, Bool.and_eq_true] at hc; exact hc.1.1
  have hblen : 0 < b.length := List.length_pos.mpr hb
  have halen : 0 < a.length := List.length_pos.mpr ha
  have htot : a.length + b.length ≤ 4 := by
    have := encodeRune_length_le c
    rw [hab, List.length_append] at this
    exact this
  constructor
  · have herr : (DecodeRune a).1 = RuneError := by
      rcases DecodeRune_sound a with h | ⟨hs, hl, hp⟩
      · exact h.1
      · exfalso
        have h1 := DecodeRune_encodeRune c [] hsc
        have h2 := DecodeRune_encodeRune (DecodeRune a).1 (a.drop (DecodeRune a).2 ++ b) hs
        rw [← List.append_assoc, ← hp, ← hab] at h2
        rw [List.append_nil, h2] at h1
        have e1 : (DecodeRune a).1 = c := congrArg Prod.fst h1
        have e2 : (encodeRune (DecodeRune a).1).length = (encodeRune c).length :=
          congrArg Prod.snd h1
        have e3 : a.length = (encodeRune (DecodeRune a).1).length
            + (a.drop (DecodeRune a).2).length := by
          conv_lhs => rw [hp]
          rw [List.length_append]
        rw [e2, hab, List.length_append] at e3
        omega
    have hlt : a.length < 4 := by omega
    rw [Write, NewRendererWithPalette]
    simp only [List.nil_append, writeLoop, halen, gt_iff_lt, if_true, peekRune, List.drop_zero,
      herr, hlt]
  · have hone : ∀ x ∈ [c], plainRune x = true := by
      intro x hx; rw [List.mem_singleton] at hx; rw [hx]; exact hc
    have h1 := writeLoop_text b.length [c] hone ((a ++ b).length - 1 + 1) [] [] pal [] []
    have hfuel : (a ++ b).length + 1 = (a ++ b).length - 1 + 1 + [c].length := by
      rw [List.length_append, List.length_singleton]; omega
    have henc : encodeRunes [c] ++ [] = a ++ b := by
      rw [encodeRunes_cons]; simp [encodeRunes, hab]
    rw [henc] at h1
    rw [Write]
    simp only []
    rw [hfuel, h1, writeLoop_end, List.nil_append, flush_cons]
    simp [encodeRunes]

theorem no_encoding_of_DecodeRune_error (p : List Nat) (h : DecodeRune p = (RuneError, 1)) :
    ∀ c, isScalar c = true → ¬ (encodeRune c <+: p) := by
  intro c hc ⟨rest, hp⟩
  have hd := DecodeRune_encodeRune c rest hc
  rw [hp, h] at hd
  have h1 : c = RuneError := (congrArg Prod.fst hd).symm
  have h2 : (encodeRune c).length = 1 := (congrArg Prod.snd hd).symm
  rw [h1] at h2
  revert h2
  decide

/-- C4: for every input of at least four bytes of which no prefix is the UTF-8
encoding of a scalar value, `Write` on a fresh renderer returns the error
`Invalid UTF-8 sequence!` (with the count 0) and sends no operation. -/
theorem C4_invalid_leading_bytes (pal : Palette) (p : List Nat) (hlen : 4 ≤ p.length)
    (hinv : ∀ c, isScalar c = true → ¬ (encodeRune c <+: p)) :
    Write (NewRendererWithPalette pal) p
      = some ⟨⟨p, [], pal⟩, [], .error .invalidUTF8⟩ := by
  have herr : (DecodeRune p).1 = RuneError := by
    rcases DecodeRune_sound p with h | ⟨hs, _, hp⟩
    · exact h.1
    · exact absurd ⟨_, hp.symm⟩ (hinv _ hs)
  have hpos : p.length > 0 := by omega
  have hnlt : ¬ (p.length < 4) := by omega
  rw [Write, NewRendererWithPalette]
  simp only [List.nil_append, writeLoop, hpos, if_true, peekRune, List.drop_zero, herr, hnlt,
    if_false]

theorem C4_invalid_leading_bytes_witness :
    Write (NewRendererWithPalette DefaultPalette) [0xB4, 0xB4, 0xB4, 0xB4]
      = some ⟨⟨[0xB4, 0xB4, 0xB4, 0xB4], [], DefaultPalette⟩, [], .error .invalidUTF8⟩ :=
  C4_invalid_leading_bytes DefaultPalette [0xB4, 0xB4, 0xB4, 0xB4] (by decide)
    (no_encoding_of_DecodeRune_error _ (by decide))

/-- C5: for every c in 30..37, every palette whose base entries are non-empty and
all non-empty plain texts t1, t2, t3 (scalar values, no ESC, no U+FFFD), writing
`t1 ESC[<c>m t2 ESC[0m t3` to a fresh renderer returns `(len, nil)` and sends
exactly three Text Runs: t1 with the empty style, t2 with the style
`{color: palette.Color(c-30)}` and t3 with the empty style again. -/
theorem C5_color_then_reset (pal : Palette) (c : Nat) (t1 t2 t3 : List Nat)
    (hc1 : 30 ≤ c) (hc2 : c ≤ 37)
    (hpal : ∀ i : Int, 0 ≤ i → i ≤ 7 → pal.Color i ≠ "")
    (hne1 : t1 ≠ []) (hne2 : t2 ≠ []) (hne3 : t3 ≠ [])
    (h1 : ∀ x ∈ t1, plainRune x = true) (h2 : ∀ x ∈ t2, plainRune x = true)
    (h3 : ∀ x ∈ t3, plainRune x = true) :
    Write (NewRendererWithPalette pal)
        (encodeRunes t1 ++ [0x1b, 0x5B] ++ decimalBytes c ++ [0x6D] ++ encodeRunes t2
          ++ [0x1b, 0x5B, 0x30, 0x6D] ++ encodeRunes t3)
      = some ⟨⟨[], [], pal⟩,
          [Op.insert (encodeRunes t1) [],
           Op.insert (encodeRunes t2) [("color", .str (pal.Color ((c : Int) - 30)))],
           Op.insert (encodeRunes t3) []],
          .ok (encodeRunes t1 ++ [0x1b, 0x5B] ++ decimalBytes c ++ [0x6D] ++ encodeRunes t2
            ++ [0x1b, 0x5B, 0x30, 0x6D] ++ encodeRunes t3).length⟩ := by
  have l1 := encodeRunes_length_ge t1
  have l2 := encodeRunes_length_ge t2
  have l3 := encodeRunes_length_ge t3
  have hd : ∀ b ∈ decimalBytes c, b < 0x40 := by
    rw [decimalBytes_color c hc1 hc2]
    intro b hb
    simp only [List.mem_cons, List.mem_singleton, List.not_mem_nil, or_false] at hb
    omega
  have hcol : pal.Color ((c : Int) - 30) ≠ "" := hpal _ (by omega) (by omega)
  generalize hL : (encodeRunes t1 ++ [0x1b, 0x5B] ++ decimalBytes c ++ [0x6D] ++ encodeRunes t2
    ++ [0x1b, 0x5B, 0x30, 0x6D] ++ encodeRunes t3).length = L
  have hLge : t1.length + t2.length + t3.length + 3 ≤ L + 1 := by
    rw [← hL]; simp only [List.length_append, List.length_cons, List.length_nil]; omega
  obtain ⟨k, hk⟩ : ∃ k, L + 1
      = (((((k + 1) + t3.length) + 1) + t2.length) + 1) + t1.length :=
    ⟨L + 1 - (t1.length + t2.length + t3.length + 3), by omega⟩
  have hin : encodeRunes t1 ++ [0x1b, 0x5B] ++ decimalBytes c ++ [0x6D] ++ encodeRunes t2
      ++ [0x1b, 0x5B, 0x30, 0x6D] ++ encodeRunes t3
      = encodeRunes t1 ++ (0x1b :: 0x5B :: (decimalBytes c ++ 0x6D :: (encodeRunes t2 ++
          (0x1b :: 0x5B :: ([0x30] ++ 0x6D :: (encodeRunes t3 ++ [])))))) := by
    simp
  have s1 := writeLoop_text L t1 h1 (((((k + 1) + t3.length) + 1) + t2.length) + 1)
    (0x1b :: 0x5B :: (decimalBytes c ++ 0x6D :: (encodeRunes t2 ++
          (0x1b :: 0x5B :: ([0x30] ++ 0x6D :: (encodeRunes t3 ++ [])))))) [] pal [] []
  have s2 := writeLoop_csi L ((((k + 1) + t3.length) + 1) + t2.length) (decimalBytes c)
    (encodeRunes t2 ++ (0x1b :: 0x5B :: ([0x30] ++ 0x6D :: (encodeRunes t3 ++ [])))) 0x6D [] pal
    ([] ++ t1) [] hd (by omega) (by omega)
  have s3 := writeLoop_text L t2 h2 (((k + 1) + t3.length) + 1)
    (0x1b :: 0x5B :: ([0x30] ++ 0x6D :: (encodeRunes t3 ++ [])))
    (handleCSI pal [] (decimalBytes c ++ [0x6D])).1 pal [] (flush ([] ++ t1) [] [])
  have s4 := writeLoop_csi L ((k + 1) + t3.length) [0x30] (encodeRunes t3 ++ []) 0x6D
    (handleCSI pal [] (decimalBytes c ++ [0x6D])).1 pal ([] ++ t2) (flush ([] ++ t1) [] [])
    (by intro b hb; simp only [List.mem_singleton] at hb; omega) (by omega) (by omega)
  have s5 := writeLoop_text L t3 h3 (k + 1) []
    (handleCSI pal (handleCSI pal [] (decimalBytes c ++ [0x6D])).1 ([0x30] ++ [0x6D])).1 pal []
    (flush ([] ++ t2) (handleCSI pal [] (decimalBytes c ++ [0x6D])).1 (flush ([] ++ t1) [] []))
  rw [Write, NewRendererWithPalette]
  simp only [List.nil_append]
  rw [hL, hin, hk, s1, s2, s3, s4, s5, writeLoop_end]
  simp only [List.nil_append, List.singleton_append, handleCSI_color pal [] c hc1 hc2,
    handleCSI_reset, flush_of_ne_nil _ hne1, flush_of_ne_nil _ hne2, flush_of_ne_nil _ hne3,
    setStyle_str _ _ _ hcol, List.filter_nil, List.cons_append]

theorem C5_color_then_reset_witness :
    Write (NewRendererWithPalette DefaultPalette)
        (encodeRunes [0x68, 0x69] ++ [0x1b, 0x5B] ++ decimalBytes 31 ++ [0x6D]
          ++ encodeRunes [0x4E16] ++ [0x1b, 0x5B, 0x30, 0x6D] ++ encodeRunes [0x21])
      = some ⟨⟨[], [], DefaultPalette⟩,
          [Op.insert (encodeRunes [0x68, 0x69]) [],
           Op.insert (encodeRunes [0x4E16]) [("color", .str (DefaultPalette.Color ((31 : Nat) - 30)))],
           Op.insert (encodeRunes [0x21]) []],
          .ok (encodeRunes [0x68, 0x69] ++ [0x1b, 0x5B] ++ decimalBytes 31 ++ [0x6D]
            ++ encodeRunes [0x4E16] ++ [0x1b, 0x5B, 0x30, 0x6D] ++ encodeRunes [0x21]).length⟩ :=
  C5_color_then_reset DefaultPalette 31 [0x68, 0x69] [0x4E16] [0x21] (by decide) (by decide)
    (by intro i h0 h7; interval_cases i <;> decide)
    (by decide) (by decide) (by decide) (by decide) (by decide) (by decide)


/-! ## The style map and the SGR parameters -/

theorem lookup_filter_ne (s : Style) (name k : String) (hk : k ≠ name) :
    List.lookup k (s.filter (fun kv => kv.1 ≠ name)) = List.lookup k s := by
  induction s with
  | nil => rfl
  | cons kv s ih =>
    obtain ⟨a, v⟩ := kv
    rw [List.filter_cons]
    by_cases ha : a = name
    · subst ha
      have hka : (k == a) = false := by rw [beq_eq_false_iff_ne]; exact hk
      have hp : decide ((a, v).1 ≠ a) = false := by simp
      rw [hp, List.lookup_cons, hka]
      exact ih
    · have hp : decide ((a, v).1 ≠ name) = true := by simpa using ha
      rw [hp, if_pos rfl, List.lookup_cons, List.lookup_cons, ih]

theorem lookup_filter_self (s : Style) (name : String) :
    List.lookup name (s.filter (fun kv => kv.1 ≠ name)) = none := by
  induction s with
  | nil => rfl
  | cons kv s ih =>
    obtain ⟨a, v⟩ := kv
    rw [List.filter_cons]
    by_cases ha : a = name
    · have hp : decide ((a, v).1 ≠ name) = false := by simpa using ha
      rw [hp]
      exact ih
    · have hp : decide ((a, v).1 ≠ name) = true := by simpa using ha
      have hka : (name == a) = false := by
        rw [beq_eq_false_iff_ne]; exact fun h => ha h.symm
      rw [hp, if_pos rfl, List.lookup_cons, hka]
      exact ih

/-- An attribute other than the one set keeps its value. -/
theorem get_setStyle_ne (s : Style) (name k : String) (value : Option Value) (hk : k ≠ name) :
    (setStyle s name value).get k = s.get k := by
  have hka : (k == name) = false := by rw [beq_eq_false_iff_ne]; exact hk
  unfold setStyle Style.get
  split
  · exact lookup_filter_ne s name k hk
  · exact lookup_filter_ne s name k hk
  · simp only [List.lookup_cons, hka]
    exact lookup_filter_ne s name k hk

/-- Setting `true` stores it. -/
theorem get_setStyle_bool (s : Style) (name : String) (b : Bool) :
    (setStyle s name (some (.bool b))).get name = some (.bool b) := by
  simp [setStyle, Style.get, List.lookup_cons]

/-- Setting a non-empty string stores it. -/
theorem get_setStyle_str (s : Style) (name x : String) (hx : x ≠ "") :
    (setStyle s name (some (.str x))).get name = some (.str x) := by
  rw [setStyle_str s name x hx]
  simp [Style.get, List.lookup_cons]

/-- Setting nil or the empty string removes the key. -/
theorem get_setStyle_remove (s : Style) (name : String) :
    (setStyle s name none).get name = none ∧
      (setStyle s name (some (.str ""))).get name = none := by
  constructor
  · simp only [setStyle, Style.get]; exact lookup_filter_self s name
  · simp only [setStyle, Style.get]; exact lookup_filter_self s name

theorem sgrLoop_skip (pal : Palette) (v : Int) (rest : List Int) (skip : Nat) (s : Style) :
    sgrLoop pal (v :: rest) (skip + 1) s = sgrLoop pal rest skip s := rfl

theorem sgrLoop_one (pal : Palette) (rest : List Int) (s : Style) :
    sgrLoop pal (1 :: rest) 0 s
      = if 0 < rest.length ∧ 30 ≤ rest.headD 0 ∧ rest.headD 0 ≤ 37 then
          sgrLoop pal rest 1
            (setStyle s "color" (some (.str (pal.HighIntensityColor (rest.headD 0 - 30)))))
        else sgrLoop pal rest 0 (setStyle s "bold" (some (.bool true))) := rfl

/-- C6: the pair of parameters 1, c with c in 30..37 sets the colour to the bright
palette entry of c-30 and goes on after both parameters; bold and every other
attribute keep the value they had. A parameter 1 that is the last one, or that is
followed by a parameter outside 30..37, sets bold to `true` and goes on with the
parameter after it. From the empty style `1;33` gives `{color: bright yellow}`
and `1;35;1` gives `{bold: true, color: bright magenta}`. -/
theorem C6_bold_bright_quirk (pal : Palette) (S : Style) (c : Int) (rest : List Int)
    (hc1 : 30 ≤ c) (hc2 : c ≤ 37) :
    sgr pal (1 :: c :: rest) S
      = sgr pal rest (setStyle S "color" (some (.str (pal.HighIntensityColor (c - 30))))) ∧
    (∀ k, k ≠ "color" →
      (setStyle S "color" (some (.str (pal.HighIntensityColor (c - 30))))).get k = S.get k) ∧
    (pal.HighIntensityColor (c - 30) ≠ "" →
      (setStyle S "color" (some (.str (pal.HighIntensityColor (c - 30))))).get "color"
        = some (.str (pal.HighIntensityColor (c - 30)))) ∧
    sgr pal [1] S = (setStyle S "bold" (some (.bool true)), none) ∧
    (∀ (d : Int) (rest' : List Int), ¬ (30 ≤ d ∧ d ≤ 37) →
      sgr pal (1 :: d :: rest') S = sgr pal (d :: rest') (setStyle S "bold" (some (.bool true)))) ∧
    (setStyle S "bold" (some (.bool true))).get "bold" = some (.bool true) ∧
    handleCSI DefaultPalette [] [0x31, 0x3B, 0x33, 0x33, 0x6D]
      = ([("color", .str "#ffff00")], none) ∧
    handleCSI DefaultPalette [] [0x31, 0x3B, 0x33, 0x35, 0x3B, 0x31, 0x6D]
      = ([("bold", .bool true), ("color", .str "#ff00ff")], none) := by
  refine ⟨?_, ?_, ?_, ?_, ?_, ?_, ?_, ?_⟩
  · have hq : 0 < (c :: rest).length ∧ 30 ≤ (c :: rest).headD 0 ∧ (c :: rest).headD 0 ≤ 37 :=
      ⟨by simp, hc1, hc2⟩
    rw [sgr, sgrLoop_one, if_pos hq, sgrLoop_skip]
    rfl
  · intro k hk
    exact get_setStyle_ne S "color" k _ hk
  · intro hne
    exact get_setStyle_str S "color" _ hne
  · rfl
  · intro d rest' hd
    have hq : ¬ (0 < (d :: rest').length ∧ 30 ≤ (d :: rest').headD 0 ∧ (d :: rest').headD 0 ≤ 37) :=
      fun h => hd h.2
    rw [sgr, sgrLoop_one, if_neg hq]
    rfl
  · exact get_setStyle_bool S "bold" true
  · decide
  · decide

theorem C6_bold_bright_quirk_witness :
    sgr DefaultPalette (1 :: 33 :: []) [("bold", .bool true)]
      = sgr DefaultPalette [] (setStyle [("bold", .bool true)] "color"
          (some (.str (DefaultPalette.HighIntensityColor (33 - 30))))) ∧
    (∀ k, k ≠ "color" →
      (setStyle [("bold", .bool true)] "color"
        (some (.str (DefaultPalette.HighIntensityColor (33 - 30))))).get k
        = Style.get [("bold", .bool true)] k) :=
  ⟨(C6_bold_bright_quirk DefaultPalette [("bold", .bool true)] 33 [] (by decide) (by decide)).1,
   (C6_bold_bright_quirk DefaultPalette [("bold", .bool true)] 33 [] (by decide) (by decide)).2.1⟩

/-! ## Hexadecimal formatting -/

theorem hexFixed_zero (k : Nat) : hexFixed k 0 = List.replicate k '0' := by
  induction k with
  | zero => rfl
  | succ k ih =>
    rw [hexFixed, Nat.zero_div, ih, List.replicate_succ']
    rfl

theorem hexFixed_length (k n : Nat) : (hexFixed k n).length = k := by
  induction k generalizing n with
  | zero => rfl
  | succ k ih => simp [hexFixed, ih]

theorem digitChar_hex (d : Nat) (hd : d < 16) :
    isLowerHex (Nat.digitChar d) = true ∧ hexDigitValue (Nat.digitChar d) = d := by
  interval_cases d <;> decide

theorem hexFixed_isLowerHex (k n : Nat) : ∀ d ∈ hexFixed k n, isLowerHex d = true := by
  induction k generalizing n with
  | zero => intro d hd; simp [hexFixed] at hd
  | succ k ih =>
    intro d hd
    simp only [hexFixed, List.mem_append, List.mem_singleton] at hd
    rcases hd with hd | rfl
    · exact ih _ d hd
    · exact (digitChar_hex _ (Nat.mod_lt _ (by decide))).1

theorem hexValue_append (xs : List Char) (d : Char) :
    hexValue (xs ++ [d]) = hexValue xs * 16 + hexDigitValue d := by
  simp [hexValue, List.foldl_append]

theorem hexValue_hexFixed (k n : Nat) : hexValue (hexFixed k n) = n % 16 ^ k := by
  induction k generalizing n with
  | zero => simp [hexFixed, hexValue, Nat.mod_one]
  | succ k ih =>
    rw [hexFixed, hexValue_append, ih, (digitChar_hex _ (Nat.mod_lt _ (by decide))).2,
      pow_succ, Nat.mul_comm (16 ^ k) 16, Nat.mod_mul]
    omega

theorem toDigitsCore_hex (k : Nat) : ∀ (n f : Nat) (acc : List Char),
    n < 16 ^ (k + 1) → n < f →
    ∃ ds, Nat.toDigitsCore 16 f n acc = ds ++ acc ∧ ds.length ≤ k + 1 ∧
      padZero (k + 1) ds = hexFixed (k + 1) n := by
  induction k with
  | zero =>
    intro n f acc hn hf
    obtain ⟨f, rfl⟩ : ∃ g, f = g + 1 := ⟨f - 1, by omega⟩
    have h0 : n / 16 = 0 := by simp at hn; omega
    refine ⟨[Nat.digitChar (n % 16)], ?_, by simp, ?_⟩
    · simp [Nat.toDigitsCore, h0]
    · simp [padZero, hexFixed]
  | succ k ih =>
    intro n f acc hn hf
    obtain ⟨f, rfl⟩ : ∃ g, f = g + 1 := ⟨f - 1, by omega⟩
    by_cases h0 : n / 16 = 0
    · refine ⟨[Nat.digitChar (n % 16)], ?_, by simp, ?_⟩
      · simp [Nat.toDigitsCore, h0]
      · rw [hexFixed, h0, hexFixed_zero]
        simp [padZero]
    · have hlt : n / 16 < 16 ^ (k + 1) := by
        rw [Nat.div_lt_iff_lt_mul (by decide)]
        rw [pow_succ] at hn
        exact hn
      have hf' : n / 16 < f := by omega
      obtain ⟨ds, hds, hlen, hpad⟩ := ih (n / 16) f (Nat.digitChar (n % 16) :: acc) hlt hf'
      refine ⟨ds ++ [Nat.digitChar (n % 16)], ?_, by simp; omega, ?_⟩
      · simp [Nat.toDigitsCore, h0, hds]
      · rw [hexFixed, ← hpad]
        simp only [padZero, List.length_append, List.length_cons, List.length_nil,
          List.append_assoc]
        congr 2
        omega

/-- The verb `%06x` on a number below 16^6 prints its six hexadecimal digits. -/
theorem sprintf06x_small (n : Nat) (hn : n < 16 ^ 6) :
    sprintf06x (n : Int) = String.mk (hexFixed 6 n) := by
  obtain ⟨ds, hds, _, hpad⟩ := toDigitsCore_hex 5 n (n + 1) [] hn (by omega)
  have hnn : ¬ ((n : Int) < 0) := by omega
  simp only [sprintf06x, hnn, if_false, Int.toNat_ofNat, Nat.toDigits, hds, List.append_nil]
  rw [hpad]

/-! ## The colours of the clause 38 -/

theorem sgrLoop_38 (pal : Palette) (rest : List Int) (s : Style) :
    sgrLoop pal (38 :: rest) 0 s
      = if rest.length ≤ 0 then (s, some .notEnoughParams)
        else if rest.getD 0 0 = 5 then
          if rest.length ≤ 1 then (s, some .notEnoughParams)
          else
            sgrLoop pal rest 2
              (setStyle s "color" (some (.str (indexedColor pal (rest.getD 1 0)))))
        else if rest.getD 0 0 = 2 then
          if 1 + 3 > rest.length then (s, some .notEnoughParams)
          else
            sgrLoop pal rest 4 (setStyle s "color"
              (some (.str (trueColor (rest.getD 1 0) (rest.getD 2 0) (rest.getD 3 0)))))
        else (s, some (.unsupportedMode (rest.getD 0 0))) := rfl

theorem sgr_38_5 (pal : Palette) (S : Style) (N : Int) (rest : List Int) :
    sgr pal (38 :: 5 :: N :: rest) S
      = sgr pal rest (setStyle S "color" (some (.str (indexedColor pal N)))) := by
  rw [sgr, sgrLoop_38]
  simp [sgrLoop_skip, sgr]

theorem sgr_38_2 (pal : Palette) (S : Style) (R G B : Int) (rest : List Int) :
    sgr pal (38 :: 2 :: R :: G :: B :: rest) S
      = sgr pal rest (setStyle S "color" (some (.str (trueColor R G B)))) := by
  rw [sgr, sgrLoop_38]
  simp [sgrLoop_skip, sgr]

theorem String_hash_append (ds : List Char) : "#" ++ String.mk ds = String.mk ('#' :: ds) := rfl

theorem pack_rgb (r g b : Nat) (hg : g < 256) (hb : b < 256) :
    (r <<< 16) ||| (g <<< 8) ||| b = r * 65536 + g * 256 + b := by
  have h1 : (r <<< 16) ||| (g <<< 8) = 2 ^ 16 * r + g * 256 := by
    rw [Nat.shiftLeft_eq, Nat.shiftLeft_eq, Nat.mul_comm r (2 ^ 16)]
    exact (Nat.mul_add_lt_is_or (by omega) r).symm
  have h2 : 2 ^ 16 * r + g * 256 = 2 ^ 8 * (256 * r + g) := by omega
  rw [h1, h2, ← Nat.mul_add_lt_is_or (by omega : b < 2 ^ 8)]
  omega

/-- C7: the clause `38;5;N` with 0 <= N < 232 sets the colour to the base palette
entry N when N < 8, to the bright palette entry N-8 when 8 <= N < 16, and
otherwise to `#` followed by the entries of the table 00 5f 87 af d7 ff at the
indices ((N-16)/36)%6, ((N-16)/6)%6 and (N-16)%6. The red index of the code,
(((N-16)/6)/6)%6, equals ((N-16)/36)%6, and the three indices lie in 0..5. -/
theorem C7_indexed_colour (pal : Palette) (S : Style) (N : Int) (rest : List Int)
    (h0 : 0 ≤ N) (h232 : N < 232) :
    sgr pal (38 :: 5 :: N :: rest) S
      = sgr pal rest (setStyle S "color" (some (.str (indexedColor pal N)))) ∧
    (N < 8 → indexedColor pal N = pal.Color N) ∧
    (8 ≤ N → N < 16 → indexedColor pal N = pal.HighIntensityColor (N - 8)) ∧
    (16 ≤ N →
      cubeR N = (N - 16) / 36 % 6 ∧ cubeG N = (N - 16) / 6 % 6 ∧ cubeB N = (N - 16) % 6 ∧
      0 ≤ cubeR N ∧ cubeR N ≤ 5 ∧ 0 ≤ cubeG N ∧ cubeG N ≤ 5 ∧ 0 ≤ cubeB N ∧ cubeB N ≤ 5 ∧
      ∃ r g b,
        ["00", "5f", "87", "af", "d7", "ff"][((N - 16) / 36 % 6).toNat]? = some r ∧
        ["00", "5f", "87", "af", "d7", "ff"][((N - 16) / 6 % 6).toNat]? = some g ∧
        ["00", "5f", "87", "af", "d7", "ff"][((N - 16) % 6).toNat]? = some b ∧
        indexedColor pal N = "#" ++ r ++ g ++ b) ∧
    indexedColor pal 16 = "#000000" ∧ indexedColor pal 107 = "#87af5f" ∧
    indexedColor pal 7 = pal.White ∧ indexedColor pal 12 = pal.BrightBlue := by
  refine ⟨sgr_38_5 pal S N rest, ?_, ?_, ?_, rfl, rfl, rfl, rfl⟩
  · intro h; simp [indexedColor, h]
  · intro h8 h16
    have : ¬ (N < 8) := by omega
    simp [indexedColor, this, h16]
  · intro h16
    have hR : cubeR N = (N - 16) / 36 % 6 := by
      have hin : Int.tdiv (N - 16) 6 = (N - 16) / 6 :=
        Int.tdiv_eq_ediv (by omega) (by decide)
      unfold cubeR
      rw [hin, Int.tdiv_eq_ediv (by omega) (by decide), Int.tmod_eq_emod (by omega) (by decide)]
      omega
    have hG : cubeG N = (N - 16) / 6 % 6 := by
      unfold cubeG
      rw [Int.tdiv_eq_ediv (by omega) (by decide), Int.tmod_eq_emod (by omega) (by decide)]
    have hB : cubeB N = (N - 16) % 6 := by
      unfold cubeB
      rw [Int.tmod_eq_emod (by omega) (by decide)]
    refine ⟨hR, hG, hB, by omega, by omega, by omega, by omega, by omega, by omega, ?_⟩
    have e1 : ¬ (N < 8) := by omega
    have e2 : ¬ (N < 16) := by omega
    have lk : ∀ i : Int, 0 ≤ i → i ≤ 5 →
        ["00", "5f", "87", "af", "d7", "ff"][i.toNat]?
          = some (cube6Values.getD i.toNat "") := by
      intro i hi0 hi5
      interval_cases i <;> rfl
    refine ⟨_, _, _, lk _ (by omega) (by omega), lk _ (by omega) (by omega),
      lk _ (by omega) (by omega), ?_⟩
    simp only [indexedColor, e1, e2, h232, if_true, if_false, hR, hG, hB]

theorem C7_indexed_colour_witness :
    sgr DefaultPalette (38 :: 5 :: 107 :: []) []
      = sgr DefaultPalette [] (setStyle [] "color" (some (.str (indexedColor DefaultPalette 107)))) :=
  (C7_indexed_colour DefaultPalette [] 107 [] (by decide) (by decide)).1

theorem hexFixed_rgb (r g b : Nat) (hr : r < 256) (hg : g < 256) (hb : b < 256) :
    hexFixed 6 (r * 65536 + g * 256 + b) = hexByte r ++ hexByte g ++ hexByte b := by
  have e5 : (r * 65536 + g * 256 + b) / 16 / 16 / 16 / 16 / 16 % 16 = r / 16 := by omega
  have e4 : (r * 65536 + g * 256 + b) / 16 / 16 / 16 / 16 % 16 = r % 16 := by omega
  have e3 : (r * 65536 + g * 256 + b) / 16 / 16 / 16 % 16 = g / 16 := by omega
  have e2 : (r * 65536 + g * 256 + b) / 16 / 16 % 16 = g % 16 := by omega
  have e1 : (r * 65536 + g * 256 + b) / 16 % 16 = b / 16 := by omega
  have e0 : (r * 65536 + g * 256 + b) % 16 = b % 16 := by omega
  simp only [hexFixed, hexByte, List.nil_append, List.cons_append, List.append_assoc, e0, e1, e2,
    e3, e4, e5]

/-- C8: for 232 <= N <= 255 the clause `38;5;N` sets the colour to the six
hexadecimal digits of 0x080808 + (N-232)*0x0a0a0a. That number is a gray whose
three channels all equal 8 + 10*(N-232), which is at most 238, so no channel
carries into the next: the colour is `#` followed three times by the two
lowercase hexadecimal digits of that channel. -/
theorem C8_grayscale_ramp (pal : Palette) (S : Style) (N : Int) (rest : List Int)
    (h232 : 232 ≤ N) (h255 : N ≤ 255) :
    sgr pal (38 :: 5 :: N :: rest) S
      = sgr pal rest (setStyle S "color" (some (.str (indexedColor pal N)))) ∧
    indexedColor pal N = "#" ++ sprintf06x (0x080808 + (N - 232) * 0x0a0a0a) ∧
    0x080808 + (N - 232) * 0x0a0a0a
      = (8 + 10 * (N - 232)) * 65536 + (8 + 10 * (N - 232)) * 256 + (8 + 10 * (N - 232)) ∧
    0 ≤ 8 + 10 * (N - 232) ∧ 8 + 10 * (N - 232) ≤ 255 ∧
    indexedColor pal N
      = String.mk ('#' :: (hexByte (8 + 10 * (N - 232)).toNat
          ++ hexByte (8 + 10 * (N - 232)).toNat ++ hexByte (8 + 10 * (N - 232)).toNat)) ∧
    indexedColor pal 232 = "#080808" ∧ indexedColor pal 247 = "#9e9e9e" ∧
    indexedColor pal 255 = "#eeeeee" := by
  refine ⟨sgr_38_5 pal S N rest, ?_, by omega, by omega, by omega, ?_, rfl, rfl, rfl⟩
  · interval_cases N <;> rfl
  · interval_cases N <;> rfl

theorem C8_grayscale_ramp_witness :
    indexedColor DefaultPalette 247
      = String.mk ('#' :: (hexByte (8 + 10 * ((247 : Int) - 232)).toNat
          ++ hexByte (8 + 10 * ((247 : Int) - 232)).toNat
          ++ hexByte (8 + 10 * ((247 : Int) - 232)).toNat)) :=
  (C8_grayscale_ramp DefaultPalette [] 247 [] (by decide) (by decide)).2.2.2.2.2.1

/-- C9: for all R, G, B, the non-negative ones in particular, the clause
`38;2;R;G;B` sets the colour to `#` followed by exactly six lowercase hexadecimal
digits, which encode (R mod 256)*65536 + (G mod 256)*256 + (B mod 256): a
component out of range is reduced to its low eight bits, neither rejected nor
clamped. -/
theorem C9_truecolor (pal : Palette) (S : Style) (R G B : Int) (rest : List Int) :
    sgr pal (38 :: 2 :: R :: G :: B :: rest) S
      = sgr pal rest (setStyle S "color" (some (.str (trueColor R G B)))) ∧
    (∃ ds : List Char, trueColor R G B = String.mk ('#' :: ds) ∧ ds.length = 6 ∧
      (∀ d ∈ ds, isLowerHex d = true) ∧
      (hexValue ds : Int) = (R % 256) * 65536 + (G % 256) * 256 + B % 256) ∧
    trueColor R G B
      = String.mk ('#' :: (hexByte (R % 256).toNat ++ hexByte (G % 256).toNat
          ++ hexByte (B % 256).toNat)) ∧
    trueColor 409 10 99 = "#990a63" ∧ trueColor 255 0 0 = "#ff0000" := by
  have hr : (R % 256).toNat < 256 := by omega
  have hg : (G % 256).toNat < 256 := by omega
  have hb : (B % 256).toNat < 256 := by omega
  have hv : (R % 256).toNat * 65536 + (G % 256).toNat * 256 + (B % 256).toNat < 16 ^ 6 := by
    norm_num; omega
  have htc : trueColor R G B = String.mk ('#' :: hexFixed 6
      ((R % 256).toNat * 65536 + (G % 256).toNat * 256 + (B % 256).toNat)) := by
    simp only [trueColor]
    rw [pack_rgb _ _ _ hg hb, sprintf06x_small _ hv, String_hash_append]
  refine ⟨sgr_38_2 pal S R G B rest, ⟨_, htc, hexFixed_length _ _, hexFixed_isLowerHex _ _, ?_⟩,
    ?_, rfl, rfl⟩
  · rw [hexValue_hexFixed, Nat.mod_eq_of_lt hv]
    push_cast
    rw [Int.toNat_of_nonneg (by omega), Int.toNat_of_nonneg (by omega),
      Int.toNat_of_nonneg (by omega)]
  · rw [htc, hexFixed_rgb _ _ _ hr hg hb]

/-- C10 (fails on the code): `handleCSI` returns an error for the complete CSI
sequences `ESC[99m` (unsupported parameter), `ESC[2J` (final byte other than m),
`ESC[38m` (incomplete clause 38) and `ESC[3;x4m` (a token that is no number), but
`Write` drops the value `handleCSI` returns: it returns `(len, nil)`, removes
the sequence and goes on with the text after it. -/
theorem C10_handleCSI_error_is_dropped :
    handleCSI DefaultPalette [] [0x39, 0x39, 0x6D] = ([], some (.unsupportedSGR 99)) ∧
    Write NewRenderer [0x61, 0x1b, 0x5B, 0x39, 0x39, 0x6D, 0x62]
      = some ⟨⟨[], [], DefaultPalette⟩, [Op.insert [0x61] [], Op.insert [0x62] []], .ok 7⟩ ∧
    handleCSI DefaultPalette [] [0x32, 0x4A] = ([], some (.invalidCSI 0x4A)) ∧
    Write NewRenderer [0x61, 0x1b, 0x5B, 0x32, 0x4A, 0x62]
      = some ⟨⟨[], [], DefaultPalette⟩, [Op.insert [0x61] [], Op.insert [0x62] []], .ok 6⟩ ∧
    handleCSI DefaultPalette [] [0x33, 0x38, 0x6D] = ([], some .notEnoughParams) ∧
    Write NewRenderer [0x61, 0x1b, 0x5B, 0x33, 0x38, 0x6D, 0x62]
      = some ⟨⟨[], [], DefaultPalette⟩, [Op.insert [0x61] [], Op.insert [0x62] []], .ok 7⟩ ∧
    handleCSI DefaultPalette [] [0x33, 0x3B, 0x3A, 0x34, 0x6D] = ([], some .atoi) ∧
    Write NewRenderer [0x61, 0x1b, 0x5B, 0x33, 0x3B, 0x3A, 0x34, 0x6D, 0x62]
      = some ⟨⟨[], [], DefaultPalette⟩, [Op.insert [0x61] [], Op.insert [0x62] []], .ok 9⟩ := by
  decide

/-! ## The remaining SGR claims -/

/-- C11 (fails on the code): for the sequence `ESC [ m` the parameter string is empty,
`strings.Split` gives one empty piece and `strconv.Atoi` fails on it, so `handleCSI`
returns that error before it reaches `if len(params) == 0` and leaves the style as
it was, for every prior style; `Write` drops the error. After `ESC[31m` the
sequence `ESC[m` does not clear the colour: the text after it is still red. -/
theorem C11_empty_parameter_list_does_not_reset :
    (∀ (pal : Palette) (S : Style), handleCSI pal S [0x6D] = (S, some .atoi)) ∧
    splitSemi [] = [[]] ∧ Atoi [] = .error .atoi ∧
    Write NewRenderer [0x1b, 0x5B, 0x33, 0x31, 0x6D, 0x1b, 0x5B, 0x6D, 0x78]
      = some ⟨⟨[], [("color", .str "#cd0000")], DefaultPalette⟩,
          [Op.insert [0x78] [("color", .str "#cd0000")]], .ok 9⟩ ∧
    Write NewRenderer [0x1b, 0x5B, 0x33, 0x31, 0x6D, 0x1b, 0x5B, 0x30, 0x6D, 0x78]
      = some ⟨⟨[], [], DefaultPalette⟩, [Op.insert [0x78] []], .ok 10⟩ := by
  refine ⟨fun _ _ => rfl, rfl, rfl, ?_, ?_⟩ <;> decide

/-- C17: for every prior style S, the parameter 0 gives the empty style, 3 sets
italic to `true`, 4 sets underline to `true`, 21 removes bold, 22 removes bold
and color, 23 removes italic and 24 removes underline, without an error; apart
from 0, every attribute that is not named keeps the value it has in S. -/
theorem C17_sgr_attribute_table (pal : Palette) (S : Style) :
    handleCSI pal S [0x30, 0x6D] = ([], none) ∧
    (handleCSI pal S [0x33, 0x6D] = (setStyle S "italic" (some (.bool true)), none) ∧
      (setStyle S "italic" (some (.bool true))).get "italic" = some (.bool true) ∧
      ∀ k, k ≠ "italic" → (setStyle S "italic" (some (.bool true))).get k = S.get k) ∧
    (handleCSI pal S [0x34, 0x6D] = (setStyle S "underline" (some (.bool true)), none) ∧
      (setStyle S "underline" (some (.bool true))).get "underline" = some (.bool true) ∧
      ∀ k, k ≠ "underline" → (setStyle S "underline" (some (.bool true))).get k = S.get k) ∧
    (handleCSI pal S [0x32, 0x31, 0x6D] = (setStyle S "bold" none, none) ∧
      (setStyle S "bold" none).get "bold" = none ∧
      ∀ k, k ≠ "bold" → (setStyle S "bold" none).get k = S.get k) ∧
    (handleCSI pal S [0x32, 0x32, 0x6D] = (setStyle (setStyle S "bold" none) "color" none, none) ∧
      (setStyle (setStyle S "bold" none) "color" none).get "bold" = none ∧
      (setStyle (setStyle S "bold" none) "color" none).get "color" = none ∧
      ∀ k, k ≠ "bold" → k ≠ "color" →
        (setStyle (setStyle S "bold" none) "color" none).get k = S.get k) ∧
    (handleCSI pal S [0x32, 0x33, 0x6D] = (setStyle S "italic" none, none) ∧
      (setStyle S "italic" none).get "italic" = none ∧
      ∀ k, k ≠ "italic" → (setStyle S "italic" none).get k = S.get k) ∧
    (handleCSI pal S [0x32, 0x34, 0x6D] = (setStyle S "underline" none, none) ∧
      (setStyle S "underline" none).get "underline" = none ∧
      ∀ k, k ≠ "underline" → (setStyle S "underline" none).get k = S.get k) := by
  refine ⟨rfl, ⟨rfl, get_setStyle_bool _ _ _, fun k hk => get_setStyle_ne _ _ _ _ hk⟩,
    ⟨rfl, get_setStyle_bool _ _ _, fun k hk => get_setStyle_ne _ _ _ _ hk⟩,
    ⟨rfl, (get_setStyle_remove _ _).1, fun k hk => get_setStyle_ne _ _ _ _ hk⟩,
    ⟨rfl, ?_, (get_setStyle_remove _ _).1, ?_⟩,
    ⟨rfl, (get_setStyle_remove _ _).1, fun k hk => get_setStyle_ne _ _ _ _ hk⟩,
    ⟨rfl, (get_setStyle_remove _ _).1, fun k hk => get_setStyle_ne _ _ _ _ hk⟩⟩
  · rw [get_setStyle_ne _ "color" "bold" none (by decide)]
    exact (get_setStyle_remove _ _).1
  · intro k hb hc
    rw [get_setStyle_ne _ "color" k none hc, get_setStyle_ne _ "bold" k none hb]

/-- C18 (fails on the code): for the input `ESC U - 1 ;` the length field parses to
-1, the test `len(r.left) < imageStart+length` is false and the slice
`r.left[imageStart : imageStart+length]` has its end below its start: the Go
runtime panics. The same happens for `ESC U 9223372036854775807 ;`, where
`imageStart+length` overflows to a negative number. -/
theorem C18_embed_length_slice_out_of_range :
    Atoi [0x2D, 0x31] = .ok (-1) ∧
    Write NewRenderer [0x1b, 0x55, 0x2D, 0x31, 0x3B]
      = some ⟨⟨[0x1b, 0x55, 0x2D, 0x31, 0x3B], [], DefaultPalette⟩, [], .panicked⟩ ∧
    Atoi [0x39, 0x32, 0x32, 0x33, 0x33, 0x37, 0x32, 0x30, 0x33, 0x36, 0x38, 0x35, 0x34, 0x37,
      0x37, 0x35, 0x38, 0x30, 0x37] = .ok 9223372036854775807 ∧
    wrap64 (22 + 9223372036854775807) = -9223372036854775787 ∧
    Write NewRenderer [0x1b, 0x55, 0x39, 0x32, 0x32, 0x33, 0x33, 0x37, 0x32, 0x30, 0x33, 0x36,
        0x38, 0x35, 0x34, 0x37, 0x37, 0x35, 0x38, 0x30, 0x37, 0x3B]
      = some ⟨⟨[0x1b, 0x55, 0x39, 0x32, 0x32, 0x33, 0x33, 0x37, 0x32, 0x30, 0x33, 0x36,
        0x38, 0x35, 0x34, 0x37, 0x37, 0x35, 0x38, 0x30, 0x37, 0x3B], [], DefaultPalette⟩, [],
        .panicked⟩ := by
  refine ⟨rfl, by decide, rfl, by decide, by decide⟩

/-- What holds next to C19: with a well-formed palette the colour stored for
`38;5;N` with 0 <= N <= 256 and for `38;2;R;G;B` with any R, G, B is `#` and six
lowercase hexadecimal digits. -/
theorem colour_well_formed (pal : Palette) (hpal : pal.wellFormed = true) :
    (∀ N : Int, 0 ≤ N → N ≤ 256 → isHexColor (indexedColor pal N) = true) ∧
    (∀ R G B : Int, isHexColor (trueColor R G B) = true) := by
  simp only [Palette.wellFormed, Bool.and_eq_true] at hpal
  obtain ⟨⟨⟨⟨⟨⟨⟨⟨⟨⟨⟨⟨⟨⟨⟨h0, h1⟩, h2⟩, h3⟩, h4⟩, h5⟩, h6⟩, h7⟩, h8⟩, h9⟩, h10⟩, h11⟩, h12⟩, h13⟩,
    h14⟩, h15⟩ := hpal
  constructor
  · intro N hN0 hN256
    by_cases hlt : N < 16
    · interval_cases N
      all_goals first
        | exact h0 | exact h1 | exact h2 | exact h3 | exact h4 | exact h5 | exact h6 | exact h7
        | exact h8 | exact h9 | exact h10 | exact h11 | exact h12 | exact h13 | exact h14
        | exact h15
    · have h16 : 16 ≤ N := by omega
      interval_cases N <;> rfl
  · intro R G B
    have hr : (R % 256).toNat < 256 := by omega
    have hg : (G % 256).toNat < 256 := by omega
    have hb : (B % 256).toNat < 256 := by omega
    have hv : (R % 256).toNat * 65536 + (G % 256).toNat * 256 + (B % 256).toNat < 16 ^ 6 := by
      norm_num; omega
    have htc : trueColor R G B = String.mk ('#' :: hexFixed 6
        ((R % 256).toNat * 65536 + (G % 256).toNat * 256 + (B % 256).toNat)) := by
      simp only [trueColor]
      rw [pack_rgb _ _ _ hg hb, sprintf06x_small _ hv, String_hash_append]
    rw [htc]
    simp only [isHexColor, Bool.and_eq_true, beq_iff_eq, List.all_eq_true]
    exact ⟨hexFixed_length _ _, hexFixed_isLowerHex _ _⟩

/-- C19 (fails on the code): for `ESC[38;5;257m` the code stores the colour
`#1030302`, seven hexadecimal digits after the `#`: the gray formula
0x080808 + (N-232)*0x0a0a0a is applied to every N from 232 on and passes
0xffffff at N = 257, and `%06x` pads but does not cut. -/
theorem C19_indexed_colour_above_256_has_seven_digits :
    (0x80808 + ((257 : Int) - 232) * 0xa0a0a = 0x1030302) ∧
    (∀ pal : Palette, indexedColor pal 257 = "#1030302") ∧
    ("#1030302" : String).length = 8 ∧
    DefaultPalette.wellFormed = true ∧ isHexColor (indexedColor DefaultPalette 257) = false ∧
    handleCSI DefaultPalette [] [0x33, 0x38, 0x3B, 0x35, 0x3B, 0x32, 0x35, 0x37, 0x6D]
      = ([("color", .str "#1030302")], none) ∧
    Write NewRenderer [0x1b, 0x5B, 0x33, 0x38, 0x3B, 0x35, 0x3B, 0x32, 0x35, 0x37, 0x6D, 0x78]
      = some ⟨⟨[], [("color", .str "#1030302")], DefaultPalette⟩,
          [Op.insert [0x78] [("color", .str "#1030302")]], .ok 12⟩ := by
  refine ⟨by decide, fun _ => rfl, by decide, by decide, by decide, by decide, by decide⟩

/-! ## The end of a CSI sequence -/

theorem peekRune_at (left : List Nat) (start c : Nat) (tl : List Nat) (hs : isScalar c = true)
    (hne : c ≠ RuneError) (h : left.drop start = encodeRune c ++ tl) :
    peekRune left start = .ok (c, (encodeRune c).length) := by
  simp [peekRune, h, DecodeRune_encodeRune c tl hs, hne]

theorem peekTillLoop_runes (left : List Nat) (start lo hi final : Nat) (rest : List Nat)
    (hf : final < 0x80) (hlo : lo ≤ final) (hhi : final < hi) (mid : List Nat) :
    ∀ (fuel : Nat) (rs : List Nat) (pb : Nat),
      left.drop (start + pb) = encodeRunes mid ++ final :: rest →
      (∀ c ∈ mid, isScalar c = true ∧ c ≠ RuneError ∧ ¬ (lo ≤ c ∧ c < hi)) →
      mid.length < fuel →
      peekTillLoop left start lo hi fuel rs pb
        = some (.ok (rs ++ mid ++ [final], pb + (encodeRunes mid).length + 1)) := by
  induction mid with
  | nil =>
    intro fuel rs pb hd _ hfuel
    simp only [encodeRunes, List.flatMap_nil, List.nil_append] at hd
    have h := peekTillLoop_ascii left start lo hi final rest hf hlo hhi [] fuel rs pb
      (by simpa using hd) (by simp) hfuel
    simpa [encodeRunes] using h
  | cons c mid ih =>
    intro fuel rs pb hd hall hfuel
    obtain ⟨fuel, rfl⟩ : ∃ k, fuel = k + 1 := ⟨fuel - 1, by simp at hfuel; omega⟩
    have hc := hall c (List.mem_cons_self _ _)
    have hpos := encodeRune_length_pos c
    rw [encodeRunes_cons, List.append_assoc] at hd
    have hlt : start + pb < left.length := by
      by_contra hge
      rw [List.drop_eq_nil_of_le (by omega)] at hd
      have := congrArg List.length hd
      simp only [List.length_nil, List.length_append] at this
      omega
    have hd' : left.drop (start + (pb + (encodeRune c).length))
        = encodeRunes mid ++ final :: rest := by
      rw [← Nat.add_assoc, ← List.drop_drop, hd, List.drop_left]
    have hrec := ih fuel (rs ++ [c]) (pb + (encodeRune c).length) hd'
      (fun x hx => hall x (List.mem_cons_of_mem _ hx))
      (by simp only [List.length_cons] at hfuel; omega)
    have hsz : (encodeRune c).length ≠ 0 := by omega
    rw [peekTillLoop]
    simp only [hlt, if_true, peekRune_at left (start + pb) c _ hc.1 hc.2.1 hd, hsz, if_false,
      hc.2.2, hrec, encodeRunes_cons, List.length_append, List.append_assoc,
      List.singleton_append]
    congr 3
    omega

/-- One iteration of the inner loop at a complete CSI sequence: the runes before
the final byte are any scalar values other than U+FFFD outside 0x40..0x7E. -/
theorem writeLoop_csi_runes (n fuel : Nat) (mid rest : List Nat) (final : Nat) (st : Style)
    (pal : Palette) (rs : List Nat) (sent : List Op)
    (hmid : ∀ c ∈ mid, isScalar c = true ∧ c ≠ RuneError ∧ ¬ (0x40 ≤ c ∧ c < 0x7F))
    (hlo : 0x40 ≤ final) (hhi : final < 0x7F) :
    writeLoop n (fuel + 1) ⟨0x1b :: 0x5B :: (encodeRunes mid ++ final :: rest), st, pal⟩ rs sent
      = writeLoop n fuel ⟨rest, (handleCSI pal st (mid ++ [final])).1, pal⟩ []
          (flush rs st sent) := by
  have hlen := encodeRunes_length_ge mid
  have ht : peekTill (0x1b :: 0x5B :: (encodeRunes mid ++ final :: rest)) 2 0x40 0x7F
      = some (.ok (mid ++ [final], (encodeRunes mid).length + 1)) := by
    have h := peekTillLoop_runes (0x1b :: 0x5B :: (encodeRunes mid ++ final :: rest)) 2 0x40 0x7F
      final rest (by omega) hlo hhi mid
      ((0x1b :: 0x5B :: (encodeRunes mid ++ final :: rest)).length + 1) [] 0 (by simp) hmid
      (by simp only [List.length_cons, List.length_append]; omega)
    simpa [peekTill] using h
  have h0 : peekRune (0x1b :: 0x5B :: (encodeRunes mid ++ final :: rest)) 0 = .ok (0x1b, 1) :=
    peekRune_ascii _ 0 0x1b _ (by omega) rfl
  have h1 : peekRune (0x1b :: 0x5B :: (encodeRunes mid ++ final :: rest)) 1 = .ok (0x5B, 1) :=
    peekRune_ascii _ 1 0x5B _ (by omega) rfl
  rw [writeLoop]
  simp only [List.length_cons, Nat.zero_lt_succ, gt_iff_lt, if_true, h0, one_ne_zero, if_false,
    h1, ht, Nat.reduceAdd]
  have hdrop : List.drop (2 + ((encodeRunes mid).length + 1))
      (27 :: 91 :: (encodeRunes mid ++ final :: rest)) = rest := by
    rw [show 2 + ((encodeRunes mid).length + 1) = ((encodeRunes mid).length + 1) + 1 + 1 by omega,
      List.drop_succ_cons, List.drop_succ_cons,
      show encodeRunes mid ++ final :: rest = (encodeRunes mid ++ [final]) ++ rest by simp]
    exact List.drop_left' (by simp)
  simp [hdrop]

theorem encodeRune_bytes (c : Nat) (hs : isScalar c = true) :
    ∀ b ∈ encodeRune c, (c < 0x80 ∧ b = c) ∨ 0x80 ≤ b := by
  intro b hb
  unfold encodeRune at hb
  split_ifs at hb with h1 h2 h3 h4
  · left; simp only [List.mem_singleton] at hb; exact ⟨h1, hb⟩
  · right
    simp only [List.mem_cons, List.mem_singleton, List.not_mem_nil, or_false] at hb
    omega
  · rw [hs] at h3; simp at h3
  · right
    simp only [List.mem_cons, List.mem_singleton, List.not_mem_nil, or_false] at hb
    omega
  · right
    simp only [List.mem_cons, List.mem_singleton, List.not_mem_nil, or_false] at hb
    omega

/-- C15, the claim as stated fails: in `ESC [ DEL A B` the byte 0x7F does not end
the CSI sequence. `peekTill` is called with the exclusive upper bound 0x7F, scans
past DEL and takes `A` as the final byte; the text sent is `B`, not `AB`. -/
theorem C15_del_does_not_end_csi :
    peekTill [0x1b, 0x5B, 0x7F, 0x41, 0x42] 2 0x40 0x7F = some (.ok ([0x7F, 0x41], 2)) ∧
    Write NewRenderer [0x1b, 0x5B, 0x7F, 0x41, 0x42]
      = some ⟨⟨[], [], DefaultPalette⟩, [Op.insert [0x42] []], .ok 5⟩ ∧
    textOf [Op.insert [0x42] []] ≠ [0x41, 0x42] := by
  refine ⟨rfl, by decide, by decide⟩

/-- C15 as amended: CSI scanning ends at the first byte b after `ESC [` with
0x40 <= b <= 0x7E (0x7F does not end it), when the bytes before b are the encoding
of scalar values other than U+FFFD. That byte is the final byte, the sequence
removed from the buffer ends exactly at it, and the bytes after it are processed
as ordinary input: plain text after it is sent as a Text Run. -/
theorem C15_csi_ends_at_first_final_byte (pal : Palette) (st : Style) (mid : List Nat)
    (final : Nat) (t : List Nat)
    (hmid : ∀ c ∈ mid, isScalar c = true ∧ c ≠ RuneError ∧ ¬ (0x40 ≤ c ∧ c ≤ 0x7E))
    (hlo : 0x40 ≤ final) (hhi : final ≤ 0x7E) (hne : t ≠ [])
    (ht : ∀ x ∈ t, plainRune x = true) :
    (∀ b ∈ encodeRunes mid, ¬ (0x40 ≤ b ∧ b ≤ 0x7E)) ∧
    peekTill ([0x1b, 0x5B] ++ encodeRunes mid ++ [final] ++ encodeRunes t) 2 0x40 0x7F
      = some (.ok (mid ++ [final], (encodeRunes mid).length + 1)) ∧
    Write ⟨[], st, pal⟩ ([0x1b, 0x5B] ++ encodeRunes mid ++ [final] ++ encodeRunes t)
      = some ⟨⟨[], (handleCSI pal st (mid ++ [final])).1, pal⟩,
          [Op.insert (encodeRunes t) (handleCSI pal st (mid ++ [final])).1],
          .ok ([0x1b, 0x5B] ++ encodeRunes mid ++ [final] ++ encodeRunes t).length⟩ := by
  have hmid' : ∀ c ∈ mid, isScalar c = true ∧ c ≠ RuneError ∧ ¬ (0x40 ≤ c ∧ c < 0x7F) := by
    intro c hc
    obtain ⟨h1, h2, h3⟩ := hmid c hc
    exact ⟨h1, h2, by omega⟩
  have hin : [0x1b, 0x5B] ++ encodeRunes mid ++ [final] ++ encodeRunes t
      = 0x1b :: 0x5B :: (encodeRunes mid ++ final :: (encodeRunes t ++ [])) := by simp
  refine ⟨?_, ?_, ?_⟩
  · intro b hb
    simp only [encodeRunes, List.mem_flatMap] at hb
    obtain ⟨c, hc, hbc⟩ := hb
    obtain ⟨h1, _, h3⟩ := hmid c hc
    rcases encodeRune_bytes c h1 b hbc with ⟨_, rfl⟩ | h
    · exact h3
    · omega
  · rw [hin]
    have h := peekTillLoop_runes (0x1b :: 0x5B :: (encodeRunes mid ++ final :: (encodeRunes t ++ [])))
      2 0x40 0x7F final (encodeRunes t ++ []) (by omega) hlo (by omega) mid
      ((0x1b :: 0x5B :: (encodeRunes mid ++ final :: (encodeRunes t ++ []))).length + 1) [] 0
      (by simp) hmid'
      (by
        have := encodeRunes_length_ge mid
        simp only [List.length_cons, List.length_append]; omega)
    simpa [peekTill] using h
  · have l1 := encodeRunes_length_ge mid
    have l2 := encodeRunes_length_ge t
    generalize hL : ([0x1b, 0x5B] ++ encodeRunes mid ++ [final] ++ encodeRunes t).length = L
    have hLge : t.length + 2 ≤ L + 1 := by
      rw [← hL]; simp only [List.length_append, List.length_cons, List.length_nil]; omega
    obtain ⟨k, hk⟩ : ∃ k, L + 1 = ((k + 1) + t.length) + 1 := ⟨L + 1 - (t.length + 2), by omega⟩
    have s1 := writeLoop_csi_runes L ((k + 1) + t.length) mid (encodeRunes t ++ []) final st pal
      [] [] hmid' hlo (by omega)
    have s2 := writeLoop_text L t ht (k + 1) [] (handleCSI pal st (mid ++ [final])).1 pal []
      (flush [] st [])
    rw [Write]
    simp only [List.nil_append]
    rw [hL, hin, hk, s1, s2, writeLoop_end, List.nil_append, flush_of_ne_nil _ hne]
    simp [flush]

theorem C15_csi_ends_at_first_final_byte_witness :
    peekTill ([0x1b, 0x5B] ++ encodeRunes [0x33, 0x31, 0x7F] ++ [0x6D] ++ encodeRunes [0x78])
        2 0x40 0x7F
      = some (.ok ([0x33, 0x31, 0x7F] ++ [0x6D], (encodeRunes [0x33, 0x31, 0x7F]).length + 1)) :=
  (C15_csi_ends_at_first_final_byte DefaultPalette [] [0x33, 0x31, 0x7F] 0x6D [0x78]
    (by decide) (by decide) (by decide) (by decide) (by decide)).2.1

/-! ## Escapes that are not recognized -/

/-- One iteration of the inner loop at `ESC x`, where x is a character other than
`[`, `U` and U+FFFD: the collected text is flushed and both are removed. -/
theorem writeLoop_unrecognized (n fuel x : Nat) (rest : List Nat) (st : Style) (pal : Palette)
    (rs : List Nat) (sent : List Op) (hs : isScalar x = true) (hne : x ≠ RuneError)
    (h1 : x ≠ 0x5B) (h2 : x ≠ 0x55) :
    writeLoop n (fuel + 1) ⟨0x1b :: (encodeRune x ++ rest), st, pal⟩ rs sent
      = writeLoop n fuel ⟨rest, st, pal⟩ [] (flush rs st sent) := by
  have hpos := encodeRune_length_pos x
  have hsz : (encodeRune x).length ≠ 0 := by omega
  have p0 : peekRune (0x1b :: (encodeRune x ++ rest)) 0 = .ok (0x1b, 1) :=
    peekRune_ascii _ 0 0x1b _ (by omega) rfl
  have p1 : peekRune (0x1b :: (encodeRune x ++ rest)) 1 = .ok (x, (encodeRune x).length) :=
    peekRune_at _ 1 x rest hs hne rfl
  have hdrop : List.drop (1 + (encodeRune x).length) (0x1b :: (encodeRune x ++ rest)) = rest := by
    rw [Nat.add_comm, List.drop_succ_cons, List.drop_left]
  rw [writeLoop]
  simp only [List.length_cons, Nat.zero_lt_succ, gt_iff_lt, if_true, p0, one_ne_zero, if_false,
    p1, hsz, h1, h2, hdrop]

/-- What holds next to C14: an escape `ESC x` with x a character other than `[`,
`U` and U+FFFD, between two non-empty plain texts without U+FFFD, is dropped; the
texts are sent as two Text Runs with the unchanged style. -/
theorem Write_unrecognized_escape (pal : Palette) (st : Style) (x : Nat) (a b : List Nat)
    (hs : isScalar x = true) (hne : x ≠ RuneError) (h1 : x ≠ 0x5B) (h2 : x ≠ 0x55)
    (hna : a ≠ []) (hnb : b ≠ [])
    (ha : ∀ c ∈ a, plainRune c = true) (hb : ∀ c ∈ b, plainRune c = true) :
    Write ⟨[], st, pal⟩ (encodeRunes a ++ [0x1b] ++ encodeRune x ++ encodeRunes b)
      = some ⟨⟨[], st, pal⟩, [Op.insert (encodeRunes a) st, Op.insert (encodeRunes b) st],
          .ok (encodeRunes a ++ [0x1b] ++ encodeRune x ++ encodeRunes b).length⟩ := by
  have l1 := encodeRunes_length_ge a
  have l2 := encodeRunes_length_ge b
  generalize hL : (encodeRunes a ++ [0x1b] ++ encodeRune x ++ encodeRunes b).length = L
  have hLge : a.length + b.length + 2 ≤ L + 1 := by
    rw [← hL]; simp only [List.length_append, List.length_cons, List.length_nil]; omega
  obtain ⟨k, hk⟩ : ∃ k, L + 1 = (((k + 1) + b.length) + 1) + a.length :=
    ⟨L + 1 - (a.length + b.length + 2), by omega⟩
  have hin : encodeRunes a ++ [0x1b] ++ encodeRune x ++ encodeRunes b
      = encodeRunes a ++ (0x1b :: (encodeRune x ++ (encodeRunes b ++ []))) := by simp
  have s1 := writeLoop_text L a ha (((k + 1) + b.length) + 1)
    (0x1b :: (encodeRune x ++ (encodeRunes b ++ []))) st pal [] []
  have s2 := writeLoop_unrecognized L ((k + 1) + b.length) x (encodeRunes b ++ []) st pal
    ([] ++ a) [] hs hne h1 h2
  have s3 := writeLoop_text L b hb (k + 1) [] st pal [] (flush ([] ++ a) st [])
  rw [Write]
  simp only [List.nil_append]
  rw [hL, hin, hk, s1, s2, s3, writeLoop_end, List.nil_append, List.nil_append,
    flush_of_ne_nil _ hna, flush_of_ne_nil _ hnb]
  simp

/-- C14 (fails on the code): for x = U+FFFD, a character other than `[` and `U`, the
input `a ESC x b`, 61 1B EF BF BD 62, makes `Write` return the error `Invalid UTF-8
sequence!` after it has sent `a`; `b` is never sent. A text that holds U+FFFD
fails in the same way: for EF BF BD 1B 56 62 nothing is sent at all. -/
theorem C14_unrecognized_escape_with_replacement_character :
    isScalar 0xFFFD = true ∧ encodeRune 0xFFFD = [0xEF, 0xBF, 0xBD] ∧
    Write NewRenderer [0x61, 0x1b, 0xEF, 0xBF, 0xBD, 0x62]
      = some ⟨⟨[0x1b, 0xEF, 0xBF, 0xBD, 0x62], [], DefaultPalette⟩, [Op.insert [0x61] []],
          .error .invalidUTF8⟩ ∧
    Valid [0xEF, 0xBF, 0xBD] = true ∧
    Write NewRenderer [0xEF, 0xBF, 0xBD, 0x1b, 0x56, 0x62]
      = some ⟨⟨[0xEF, 0xBF, 0xBD, 0x1b, 0x56, 0x62], [], DefaultPalette⟩, [],
          .error .invalidUTF8⟩ := by
  decide

/-! ## The embed extension -/

theorem digitsValue_append (xs : List Nat) (d : Nat) :
    digitsValue (xs ++ [d]) = digitsValue xs * 10 + (d - 0x30) := by
  simp [digitsValue, List.foldl_append]

theorem digitChar_dec (d : Nat) (hd : d < 10) : (Nat.digitChar d).toNat = 0x30 + d := by
  interval_cases d <;> rfl

theorem toDigitsCore_dec (f : Nat) : ∀ (n : Nat) (acc : List Char), n < f →
    ∃ ds : List Char, Nat.toDigitsCore 10 f n acc = ds ++ acc ∧ ds ≠ [] ∧
      (∀ c ∈ ds, isDigit c.toNat = true) ∧ digitsValue (ds.map Char.toNat) = n := by
  induction f with
  | zero =>
    intro n acc hn
    omega
  | succ f ih =>
    intro n acc hn
    have hd := digitChar_dec (n % 10) (Nat.mod_lt _ (by decide))
    have hdig : isDigit (Nat.digitChar (n % 10)).toNat = true := by
      rw [hd]
      have := Nat.mod_lt n (by decide : 0 < 10)
      simp only [isDigit, Bool.and_eq_true, decide_eq_true_eq]
      omega
    by_cases h0 : n / 10 = 0
    · refine ⟨[Nat.digitChar (n % 10)], by simp [Nat.toDigitsCore, h0], by simp, ?_, ?_⟩
      · intro x hx
        rw [List.mem_singleton.mp hx]
        exact hdig
      · simp only [List.map_cons, List.map_nil, digitsValue, List.foldl_cons, List.foldl_nil, hd]
        omega
    · have hsmall : n / 10 < f := by omega
      obtain ⟨run, hrun, -, hdigs, hvalue⟩ := ih (n / 10) (Nat.digitChar (n % 10) :: acc) hsmall
      refine ⟨run ++ [Nat.digitChar (n % 10)], by simp [Nat.toDigitsCore, h0, hrun], by simp,
        ?_, ?_⟩
      · intro x hx
        simp only [List.mem_append, List.mem_singleton] at hx
        exact hx.elim (hdigs x) (fun e => e ▸ hdig)
      · rw [List.map_append, List.map_cons, List.map_nil, digitsValue_append, hvalue, hd]
        omega

theorem decimalBytes_spec (n : Nat) :
    decimalBytes n ≠ [] ∧ (∀ b ∈ decimalBytes n, isDigit b = true) ∧
      digitsValue (decimalBytes n) = n := by
  obtain ⟨ds, hds, hne, hall, hval⟩ := toDigitsCore_dec (n + 1) n [] (by omega)
  have he : decimalBytes n = ds.map Char.toNat := by
    simp [decimalBytes, Nat.toDigits, hds]
  rw [he]
  refine ⟨by simpa using hne, ?_, hval⟩
  intro b hb
  rw [List.mem_map] at hb
  obtain ⟨c, hc, rfl⟩ := hb
  exact hall c hc

theorem Atoi_decimalBytes (n : Nat) (hn : n < 2 ^ 63) : Atoi (decimalBytes n) = .ok (n : Int) := by
  obtain ⟨hne, hall, hval⟩ := decimalBytes_spec n
  obtain ⟨d, tl, hdt⟩ : ∃ d tl, decimalBytes n = d :: tl := by
    cases h : decimalBytes n with
    | nil => exact absurd h hne
    | cons d tl => exact ⟨d, tl, rfl⟩
  have hd : isDigit d = true := hall d (by rw [hdt]; exact List.mem_cons_self _ _)
  simp only [isDigit, Bool.and_eq_true, decide_eq_true_eq] at hd
  have h1 : d ≠ 0x2D := by omega
  have h2 : d ≠ 0x2B := by omega
  have hall' : (d :: tl).all isDigit = true := by
    rw [← hdt, List.all_eq_true]; exact hall
  have hv : digitsValue (d :: tl) < 2 ^ 63 := by rw [← hdt, hval]; exact hn
  have hv' : digitsValue (d :: tl) = n := by rw [← hdt, hval]
  rw [hdt]
  simp only [Atoi, List.head?_cons, Option.some.injEq, h1, h2, or_self, if_false, List.isEmpty_cons,
    hall', Bool.not_true, Bool.or_self, Bool.false_eq_true, hv, if_true, hv', hn]

theorem wrap64_of_lt (x : Int) (h0 : 0 ≤ x) (h1 : x < 2 ^ 63) : wrap64 x = x := by
  unfold wrap64
  have e63 : (2 : Int) ^ 63 = 9223372036854775808 := by norm_num
  have e64 : (2 : Int) ^ 64 = 18446744073709551616 := by norm_num
  rw [e63] at h1 ⊢
  rw [e64]
  omega

/-- One iteration of the inner loop at `ESC U <L> ;` when the offset of the payload
plus L does not overflow: with fewer than L bytes after the `;` the call returns
and keeps the buffer; otherwise the next L bytes are the payload, which is sent
as an Embed Run and removed with the unit when it is valid UTF-8. -/
theorem writeLoop_embed (n fuel L : Nat) (tail : List Nat) (st : Style) (pal : Palette)
    (rs : List Nat) (sent : List Op) (hbound : 3 + (decimalBytes L).length + L < 2 ^ 63) :
    writeLoop n (fuel + 1) ⟨0x1b :: 0x55 :: (decimalBytes L ++ 0x3B :: tail), st, pal⟩ rs sent
      = if tail.length < L then
          some ⟨⟨0x1b :: 0x55 :: (decimalBytes L ++ 0x3B :: tail), st, pal⟩, flush rs st sent, .ok n⟩
        else if Valid (tail.take L) = true then
          writeLoop n fuel ⟨tail.drop L, st, pal⟩ []
            (flush rs st sent ++ [Op.insertEmbed "image" (tail.take L) st])
        else
          some ⟨⟨0x1b :: 0x55 :: (decimalBytes L ++ 0x3B :: tail), st, pal⟩, flush rs st sent,
            .error .imageNotUTF8⟩ := by
  obtain ⟨hne, hall, hval⟩ := decimalBytes_spec L
  have hparams : ∀ b ∈ decimalBytes L, b < 0x80 ∧ ¬ (0x3B ≤ b ∧ b < 0x3B + 1) := by
    intro b hb
    have := hall b hb
    simp only [isDigit, Bool.and_eq_true, decide_eq_true_eq] at this
    omega
  have ht := peekTill_ascii [0x1b, 0x55] (decimalBytes L) tail 0x3B (0x3B + 1) 0x3B (by omega)
    (by omega) (by omega) hparams
  simp only [List.cons_append, List.nil_append, List.length_cons, List.length_nil] at ht
  have p0 : peekRune (0x1b :: 0x55 :: (decimalBytes L ++ 0x3B :: tail)) 0 = .ok (0x1b, 1) :=
    peekRune_ascii _ 0 0x1b _ (by omega) rfl
  have p1 : peekRune (0x1b :: 0x55 :: (decimalBytes L ++ 0x3B :: tail)) 1 = .ok (0x55, 1) :=
    peekRune_ascii _ 1 0x55 _ (by omega) rfl
  have hL : L < 2 ^ 63 := by omega
  have hat : Atoi (decimalBytes L ++ [0x3B]).dropLast = .ok (L : Int) := by
    rw [List.dropLast_concat]; exact Atoi_decimalBytes L hL
  have hw : wrap64 (((2 + ((decimalBytes L).length + 1) : Nat) : Int) + (L : Int))
      = ((2 + ((decimalBytes L).length + 1) + L : Nat) : Int) := by
    rw [wrap64_of_lt]
    · push_cast; ring
    · omega
    · have : 2 + ((decimalBytes L).length + 1) + L < 2 ^ 63 := by omega
      have h2 : ((2 + ((decimalBytes L).length + 1) + L : Nat) : Int) < ((2 ^ 63 : Nat) : Int) :=
        Nat.cast_lt.mpr this
      push_cast at h2 ⊢
      omega
  have hD1 : ¬ ((decimalBytes L).length + 1 = 0) := by omega
  have c1 : ((((decimalBytes L ++ 0x3B :: tail).length + 1 + 1 : Nat) : Int)
      < ((2 + ((decimalBytes L).length + 1) + L : Nat) : Int)) ↔ tail.length < L := by
    rw [Nat.cast_lt, List.length_append, List.length_cons]; omega
  have c2 : ¬ (((2 + ((decimalBytes L).length + 1) + L : Nat) : Int)
      < ((2 + ((decimalBytes L).length + 1) : Nat) : Int)) := by
    rw [Nat.cast_lt]; omega
  have hleft : 0x1b :: 0x55 :: (decimalBytes L ++ 0x3B :: tail)
      = (0x1b :: 0x55 :: (decimalBytes L ++ [0x3B])) ++ tail := by simp
  have hprelen : 2 + ((decimalBytes L).length + 1)
      = (0x1b :: 0x55 :: (decimalBytes L ++ [0x3B])).length := by
    simp only [List.length_cons, List.length_append, List.length_nil]; omega
  have htake : List.drop (2 + ((decimalBytes L).length + 1))
      (List.take (2 + ((decimalBytes L).length + 1) + L)
        (0x1b :: 0x55 :: (decimalBytes L ++ 0x3B :: tail))) = tail.take L := by
    rw [hleft, hprelen, List.take_append, List.drop_left]
  have hdrop : List.drop (2 + ((decimalBytes L).length + 1) + L)
      (0x1b :: 0x55 :: (decimalBytes L ++ 0x3B :: tail)) = tail.drop L := by
    rw [hleft, hprelen, List.drop_append]
  have e1 : ¬ ((0x55 : Nat) = 0x5B) := by decide
  rw [writeLoop]
  simp only [List.length_cons, Nat.zero_lt_succ, gt_iff_lt, if_true, p0, one_ne_zero, if_false,
    p1, ht, Nat.reduceAdd, hat, hw, Int.toNat_ofNat, hD1, c1, c2, htake, hdrop, e1]
  by_cases hlt : tail.length < L
  · simp only [hlt, if_true]
  · by_cases hv : Valid (tail.take L) = true
    · simp [hlt, hv]
    · simp [hlt, hv]

theorem flush_eq (rs : List Nat) (st : Style) (sent : List Op) :
    flush rs st sent = sent ++ (if rs = [] then [] else [Op.insert (encodeRunes rs) st]) := by
  cases rs with
  | nil => simp [flush]
  | cons c cs => simp [flush]

theorem embedUnit_eq (payload rest : List Nat) :
    embedUnit payload ++ rest
      = 0x1b :: 0x55 :: (decimalBytes payload.length ++ 0x3B :: (payload ++ rest)) := by
  simp [embedUnit]

/-- C12: for every payload that is valid UTF-8 (ESC bytes and all) and all plain
texts pre and post (scalar values, no ESC, no U+FFFD), writing
`pre ESC U <decimal length of the payload> ; payload post`, an input whose length
fits an `int` as every Go slice does, sends in order a Text Run for pre when it
is not empty, one Embed Run with the key `image`, the payload as value and
the current style, and a Text Run for post when it is not empty. The length counts
bytes. When the payload is not valid UTF-8 the call returns the error `Image data
is not in UTF-8 format!` and sends no Embed Run. -/
theorem C12_embed (pal : Palette) (st : Style) (pre post payload : List Nat)
    (hpre : ∀ c ∈ pre, plainRune c = true) (hpost : ∀ c ∈ post, plainRune c = true)
    (hlen : (encodeRunes pre ++ embedUnit payload ++ encodeRunes post).length < 2 ^ 63) :
    (Valid payload = true →
      Write ⟨[], st, pal⟩ (encodeRunes pre ++ embedUnit payload ++ encodeRunes post)
        = some ⟨⟨[], st, pal⟩,
            (if pre = [] then [] else [Op.insert (encodeRunes pre) st])
              ++ [Op.insertEmbed "image" payload st]
              ++ (if post = [] then [] else [Op.insert (encodeRunes post) st]),
            .ok (encodeRunes pre ++ embedUnit payload ++ encodeRunes post).length⟩) ∧
    (Valid payload = false →
      Write ⟨[], st, pal⟩ (encodeRunes pre ++ embedUnit payload ++ encodeRunes post)
        = some ⟨⟨embedUnit payload ++ encodeRunes post, st, pal⟩,
            (if pre = [] then [] else [Op.insert (encodeRunes pre) st]),
            .error .imageNotUTF8⟩) := by
  have l1 := encodeRunes_length_ge pre
  have l2 := encodeRunes_length_ge post
  have hunit : (embedUnit payload).length
      = 3 + (decimalBytes payload.length).length + payload.length := by
    simp only [embedUnit, List.length_append, List.length_cons, List.length_nil]; omega
  have hbound : 3 + (decimalBytes payload.length).length + payload.length < 2 ^ 63 := by
    simp only [List.length_append] at hlen; omega
  generalize hL : (encodeRunes pre ++ embedUnit payload ++ encodeRunes post).length = L
  have hLge : pre.length + post.length + 2 ≤ L + 1 := by
    rw [← hL]; simp only [List.length_append]; omega
  obtain ⟨k, hk⟩ : ∃ k, L + 1 = (((k + 1) + post.length) + 1) + pre.length :=
    ⟨L + 1 - (pre.length + post.length + 2), by omega⟩
  have hin : encodeRunes pre ++ embedUnit payload ++ encodeRunes post
      = encodeRunes pre ++ (0x1b :: 0x55 :: (decimalBytes payload.length ++ 0x3B ::
          (payload ++ (encodeRunes post ++ [])))) := by
    rw [List.append_assoc, embedUnit_eq, List.append_nil]
  have s1 := writeLoop_text L pre hpre (((k + 1) + post.length) + 1)
    (0x1b :: 0x55 :: (decimalBytes payload.length ++ 0x3B ::
      (payload ++ (encodeRunes post ++ [])))) st pal [] []
  have s2 := writeLoop_embed L ((k + 1) + post.length) payload.length
    (payload ++ (encodeRunes post ++ [])) st pal ([] ++ pre) [] hbound
  have hnlt : ¬ ((payload ++ (encodeRunes post ++ [])).length < payload.length) := by
    rw [List.length_append]; omega
  rw [if_neg hnlt, List.take_left, List.drop_left] at s2
  have s3 := writeLoop_text L post hpost (k + 1) [] st pal []
    (flush ([] ++ pre) st [] ++ [Op.insertEmbed "image" payload st])
  constructor
  · intro hv
    rw [if_pos hv] at s2
    rw [Write]
    simp only [List.nil_append]
    rw [hL, hin, hk, s1, s2, s3, writeLoop_end]
    simp only [List.nil_append, flush_eq, List.append_assoc]
  · intro hv
    have hv' : ¬ (Valid payload = true) := by rw [hv]; decide
    rw [if_neg hv'] at s2
    rw [Write]
    simp only [List.nil_append]
    rw [hL, hin, hk, s1, s2]
    simp only [List.nil_append, flush_eq, embedUnit_eq, List.append_nil]

theorem C12_embed_witness :
    Write ⟨[], [], DefaultPalette⟩
        (encodeRunes [0x61] ++ embedUnit [0xE4, 0xB8, 0x96, 0x1b] ++ encodeRunes [0x62])
      = some ⟨⟨[], [], DefaultPalette⟩,
          (if [0x61] = ([] : List Nat) then [] else [Op.insert (encodeRunes [0x61]) []])
            ++ [Op.insertEmbed "image" [0xE4, 0xB8, 0x96, 0x1b] []]
            ++ (if [0x62] = ([] : List Nat) then [] else [Op.insert (encodeRunes [0x62]) []]),
          .ok (encodeRunes [0x61] ++ embedUnit [0xE4, 0xB8, 0x96, 0x1b]
            ++ encodeRunes [0x62]).length⟩ :=
  (C12_embed DefaultPalette [] [0x61] [0x62] [0xE4, 0xB8, 0x96, 0x1b] (by decide) (by decide)
    (by decide)).1 (by decide)

/-- What holds next to C13: when the offset of the payload plus L does not
overflow, a buffer `ESC U <L> ;` with fewer than L bytes after it makes `Write`
return `(len(p), nil)`, send nothing and keep the whole unit; a later call that
supplies the rest of a valid payload sends the Embed Run and empties the buffer. -/
theorem Write_incomplete_embed (pal : Palette) (st : Style) (L : Nat) (part more : List Nat)
    (hbound : 3 + (decimalBytes L).length + L < 2 ^ 63) (hpart : part.length < L)
    (hfull : (part ++ more).length = L) (hv : Valid (part ++ more) = true) :
    Write ⟨[], st, pal⟩ (0x1b :: 0x55 :: (decimalBytes L ++ 0x3B :: part))
      = some ⟨⟨0x1b :: 0x55 :: (decimalBytes L ++ 0x3B :: part), st, pal⟩, [],
          .ok (0x1b :: 0x55 :: (decimalBytes L ++ 0x3B :: part)).length⟩ ∧
    Write ⟨0x1b :: 0x55 :: (decimalBytes L ++ 0x3B :: part), st, pal⟩ more
      = some ⟨⟨[], st, pal⟩, [Op.insertEmbed "image" (part ++ more) st], .ok more.length⟩ := by
  constructor
  · have s1 := writeLoop_embed (0x1b :: 0x55 :: (decimalBytes L ++ 0x3B :: part)).length
      (0x1b :: 0x55 :: (decimalBytes L ++ 0x3B :: part)).length L part st pal [] [] hbound
    rw [if_pos hpart] at s1
    rw [Write]
    simp only [List.nil_append]
    rw [s1]
    simp [flush]
  · have hleft : 0x1b :: 0x55 :: (decimalBytes L ++ 0x3B :: part) ++ more
        = 0x1b :: 0x55 :: (decimalBytes L ++ 0x3B :: (part ++ more)) := by simp
    obtain ⟨k, hk⟩ : ∃ k,
        (0x1b :: 0x55 :: (decimalBytes L ++ 0x3B :: (part ++ more))).length + 1 = (k + 1) + 1 :=
      ⟨(0x1b :: 0x55 :: (decimalBytes L ++ 0x3B :: (part ++ more))).length - 1, by
        simp only [List.length_cons]; omega⟩
    have s1 := writeLoop_embed more.length (k + 1) L (part ++ more) st pal [] [] hbound
    have hnlt : ¬ ((part ++ more).length < L) := by omega
    subst hfull
    rw [if_neg hnlt, List.take_length, List.drop_length, if_pos hv, writeLoop_end] at s1
    rw [Write]
    simp only []
    rw [hleft, hk, s1]
    simp [flush]

/-- C13 (fails on the code): the buffer `ESC U 9223372036854775807 ; a` holds the
start of an embed unit with one byte out of L = 2^63-1, fewer than L. The sum
`imageStart+length` overflows to a negative number, the test
`len(r.left) < imageStart+length` is false and the slice expression panics: `Write`
does not return `(len(p), nil)`. -/
theorem C13_incomplete_embed_with_overflowing_length :
    Atoi [0x39, 0x32, 0x32, 0x33, 0x33, 0x37, 0x32, 0x30, 0x33, 0x36, 0x38, 0x35, 0x34, 0x37,
      0x37, 0x35, 0x38, 0x30, 0x37] = .ok (2 ^ 63 - 1) ∧
    wrap64 (22 + (2 ^ 63 - 1)) < 23 ∧
    Write NewRenderer [0x1b, 0x55, 0x39, 0x32, 0x32, 0x33, 0x33, 0x37, 0x32, 0x30, 0x33, 0x36,
        0x38, 0x35, 0x34, 0x37, 0x37, 0x35, 0x38, 0x30, 0x37, 0x3B, 0x61]
      = some ⟨⟨[0x1b, 0x55, 0x39, 0x32, 0x32, 0x33, 0x33, 0x37, 0x32, 0x30, 0x33, 0x36,
        0x38, 0x35, 0x34, 0x37, 0x37, 0x35, 0x38, 0x30, 0x37, 0x3B, 0x61], [], DefaultPalette⟩, [],
        .panicked⟩ := by
  refine ⟨rfl, by decide, by decide⟩

/-! ## The invariant of the style map -/

theorem setStyle_ok (s : Style) (name : String) (value : Option Value) (hs : StyleOK s)
    (hname : name ∈ styleKeys) : StyleOK (setStyle s name value) := by
  have hf : StyleOK (s.filter (fun kv => kv.1 ≠ name)) := by
    intro kv hkv
    exact hs kv (List.mem_of_mem_filter hkv)
  unfold setStyle
  split
  · exact hf
  · exact hf
  · rename_i v h1 h2
    intro kv hkv
    rw [List.mem_cons] at hkv
    rcases hkv with rfl | hkv
    · refine ⟨hname, ?_⟩
      intro hv
      exact h2 (by simpa using hv)
    · exact hf kv hkv

theorem clearStyle_ok : StyleOK clearStyle := by
  intro kv hkv
  simp [clearStyle] at hkv

theorem sgrLoop_cons_zero (pal : Palette) (v : Int) (rest : List Int) (s : Style) :
    sgrLoop pal (v :: rest) 0 s =
    if v = 1 then
      if 0 < rest.length ∧ 30 ≤ rest.headD 0 ∧ rest.headD 0 ≤ 37 then
        sgrLoop pal rest 1
          (setStyle s "color" (some (.str (pal.HighIntensityColor (rest.headD 0 - 30)))))
      else sgrLoop pal rest 0 (setStyle s "bold" (some (.bool true)))
    else if v = 0 then sgrLoop pal rest 0 clearStyle
    else if v = 3 then sgrLoop pal rest 0 (setStyle s "italic" (some (.bool true)))
    else if v = 4 then sgrLoop pal rest 0 (setStyle s "underline" (some (.bool true)))
    else if v = 21 then sgrLoop pal rest 0 (setStyle s "bold" none)
    else if v = 22 then sgrLoop pal rest 0 (setStyle (setStyle s "bold" none) "color" none)
    else if v = 23 then sgrLoop pal rest 0 (setStyle s "italic" none)
    else if v = 24 then sgrLoop pal rest 0 (setStyle s "underline" none)
    else if 30 ≤ v ∧ v ≤ 37 then
      sgrLoop pal rest 0 (setStyle s "color" (some (.str (pal.Color (v - 30)))))
    else if v = 38 then
      if rest.length ≤ 0 then (s, some .notEnoughParams)
      else if rest.getD 0 0 = 5 then
        if rest.length ≤ 1 then (s, some .notEnoughParams)
        else
          sgrLoop pal rest 2 (setStyle s "color" (some (.str (indexedColor pal (rest.getD 1 0)))))
      else if rest.getD 0 0 = 2 then
        if 1 + 3 > rest.length then (s, some .notEnoughParams)
        else
          sgrLoop pal rest 4 (setStyle s "color"
            (some (.str (trueColor (rest.getD 1 0) (rest.getD 2 0) (rest.getD 3 0)))))
      else (s, some (.unsupportedMode (rest.getD 0 0)))
    else (s, some (.unsupportedSGR v)) := rfl

theorem ite_fst_ok {c : Prop} [Decidable c] (a b : Style × Option GoError) (ha : StyleOK a.1)
    (hb : StyleOK b.1) : StyleOK (if c then a else b).1 := by
  by_cases h : c
  · rw [if_pos h]; exact ha
  · rw [if_neg h]; exact hb

theorem sgrLoop_ok (pal : Palette) : ∀ (params : List Int) (skip : Nat) (s : Style),
    StyleOK s → StyleOK (sgrLoop pal params skip s).1 := by
  intro params
  induction params with
  | nil => intro skip s hs; simpa [sgrLoop] using hs
  | cons v rest ih =>
    intro skip s hs
    cases skip with
    | succ k => rw [sgrLoop_skip]; exact ih k s hs
    | zero =>
      have kb : "bold" ∈ styleKeys := by decide
      have ki : "italic" ∈ styleKeys := by decide
      have ku : "underline" ∈ styleKeys := by decide
      have kc : "color" ∈ styleKeys := by decide
      rw [sgrLoop_cons_zero]
      repeat' apply ite_fst_ok
      all_goals first
        | exact hs
        | exact ih _ _ clearStyle_ok
        | exact ih _ _ (setStyle_ok _ _ _ (setStyle_ok _ _ _ hs kb) kc)
        | exact ih _ _ (setStyle_ok _ _ _ hs kb)
        | exact ih _ _ (setStyle_ok _ _ _ hs ki)
        | exact ih _ _ (setStyle_ok _ _ _ hs ku)
        | exact ih _ _ (setStyle_ok _ _ _ hs kc)

theorem handleCSI_ok (pal : Palette) (s : Style) (data : List Nat) (hs : StyleOK s) :
    StyleOK (handleCSI pal s data).1 := by
  unfold handleCSI
  simp only []
  split
  · exact hs
  · split_ifs
    · exact sgrLoop_ok pal _ 0 s hs
    · exact sgrLoop_ok pal _ 0 s hs
    · exact hs

/-! ## Termination -/

theorem peekTillLoop_some (left : List Nat) (start lo hi : Nat) :
    ∀ (fuel : Nat) (rs : List Nat) (pb : Nat), left.length - (start + pb) < fuel →
      ∃ x, peekTillLoop left start lo hi fuel rs pb = some x := by
  intro fuel
  induction fuel with
  | zero => intro rs pb h; exact absurd h (Nat.not_lt_zero _)
  | succ fuel ih =>
    intro rs pb h
    rw [peekTillLoop]
    by_cases hlt : start + pb < left.length
    · rw [if_pos hlt]
      cases hp : peekRune left (start + pb) with
      | error e => exact ⟨_, rfl⟩
      | ok cs =>
        obtain ⟨ch, size⟩ := cs
        simp only []
        by_cases hz : size = 0
        · rw [if_pos hz]; exact ⟨_, rfl⟩
        · rw [if_neg hz]
          by_cases hr : lo ≤ ch ∧ ch < hi
          · rw [if_pos hr]; exact ⟨_, rfl⟩
          · rw [if_neg hr]
            exact ih _ _ (by omega)
    · rw [if_neg hlt]; exact ⟨_, rfl⟩

theorem peekTill_some (left : List Nat) (start lo hi : Nat) :
    ∃ x, peekTill left start lo hi = some x :=
  peekTillLoop_some left start lo hi (left.length + 1) [] 0 (by omega)

/-- One iteration of the inner loop of `Write` either returns, with the renderer as
it is, or goes on with a strictly shorter buffer, the same palette and a style
that is the old one or the one `handleCSI` leaves. -/
theorem writeLoop_step (n fuel : Nat) (r : Renderer) (rs : List Nat) (sent : List Op) :
    (∃ res, writeLoop n (fuel + 1) r rs sent = some res ∧ res.r = r) ∨
    (∃ (r' : Renderer) (rs' : List Nat) (sent' : List Op),
      writeLoop n (fuel + 1) r rs sent = writeLoop n fuel r' rs' sent' ∧
      r'.palette = r.palette ∧ r'.left.length < r.left.length ∧
      (r'.currentStyle = r.currentStyle ∨
        ∃ data, r'.currentStyle = (handleCSI r.palette r.currentStyle data).1)) := by
  rw [writeLoop]
  by_cases hlen : r.left.length > 0
  swap
  · rw [if_neg hlen]; exact Or.inl ⟨_, rfl, rfl⟩
  rw [if_pos hlen]
  cases hp : peekRune r.left 0 with
  | error e => exact Or.inl ⟨_, rfl, rfl⟩
  | ok cs =>
  obtain ⟨ch, size⟩ := cs
  simp only []
  by_cases hz : size = 0
  · rw [if_pos hz]; exact Or.inl ⟨_, rfl, rfl⟩
  rw [if_neg hz]
  by_cases hesc : ch = 0x1b
  swap
  · rw [if_neg hesc]
    exact Or.inr ⟨_, _, _, rfl, rfl, by simp only [List.length_drop]; omega, Or.inl rfl⟩
  rw [if_pos hesc]
  cases hp2 : peekRune r.left size with
  | error e => exact Or.inl ⟨_, rfl, rfl⟩
  | ok cs2 =>
  obtain ⟨ch2, size2⟩ := cs2
  simp only []
  by_cases hz2 : size2 = 0
  · rw [if_pos hz2]; exact Or.inl ⟨_, rfl, rfl⟩
  rw [if_neg hz2]
  by_cases hcsi : ch2 = 0x5B
  · rw [if_pos hcsi]
    obtain ⟨x, hx⟩ := peekTill_some r.left (size + size2) 0x40 0x7F
    rw [hx]
    cases x with
    | error e => exact Or.inl ⟨_, rfl, rfl⟩
    | ok dp =>
      obtain ⟨data, peekBytes⟩ := dp
      simp only []
      by_cases hpb : peekBytes = 0
      · rw [if_pos hpb]; exact Or.inl ⟨_, rfl, rfl⟩
      · rw [if_neg hpb]
        exact Or.inr ⟨_, _, _, rfl, rfl, by simp only [List.length_drop]; omega,
          Or.inr ⟨data, rfl⟩⟩
  rw [if_neg hcsi]
  by_cases hemb : ch2 = 0x55
  swap
  · rw [if_neg hemb]
    exact Or.inr ⟨_, _, _, rfl, rfl, by simp only [List.length_drop]; omega, Or.inl rfl⟩
  rw [if_pos hemb]
  obtain ⟨x, hx⟩ := peekTill_some r.left (size + size2) 0x3B (0x3B + 1)
  rw [hx]
  cases x with
  | error e => exact Or.inl ⟨_, rfl, rfl⟩
  | ok dp =>
  obtain ⟨data, peekBytes⟩ := dp
  simp only []
  by_cases hpb : peekBytes = 0
  · rw [if_pos hpb]; exact Or.inl ⟨_, rfl, rfl⟩
  rw [if_neg hpb]
  cases ha : Atoi data.dropLast with
  | error e => exact Or.inl ⟨_, rfl, rfl⟩
  | ok length =>
  simp only []
  by_cases h1 : (r.left.length : Int) < wrap64 (((size + size2 + peekBytes : Nat) : Int) + length)
  · rw [if_pos h1]; exact Or.inl ⟨_, rfl, rfl⟩
  rw [if_neg h1]
  by_cases h2 : wrap64 (((size + size2 + peekBytes : Nat) : Int) + length)
      < ((size + size2 + peekBytes : Nat) : Int)
  · rw [if_pos h2]; exact Or.inl ⟨_, rfl, rfl⟩
  rw [if_neg h2]
  split
  · exact Or.inl ⟨_, rfl, rfl⟩
  · refine Or.inr ⟨_, _, _, rfl, rfl, ?_, Or.inl rfl⟩
    simp only [List.length_drop]
    omega

theorem peekTillLoop_step (left : List Nat) (start lo hi fuel : Nat) (rs : List Nat) (pb : Nat) :
    (∃ x, peekTillLoop left start lo hi (fuel + 1) rs pb = some x) ∨
    (∃ (rs' : List Nat) (pb' : Nat),
      peekTillLoop left start lo hi (fuel + 1) rs pb = peekTillLoop left start lo hi fuel rs' pb' ∧
      pb + 1 ≤ pb') := by
  rw [peekTillLoop]
  by_cases hlt : start + pb < left.length
  · rw [if_pos hlt]
    cases hp : peekRune left (start + pb) with
    | error e => exact Or.inl ⟨_, rfl⟩
    | ok cs =>
      obtain ⟨ch, size⟩ := cs
      simp only []
      by_cases hz : size = 0
      · rw [if_pos hz]; exact Or.inl ⟨_, rfl⟩
      · rw [if_neg hz]
        by_cases hr : lo ≤ ch ∧ ch < hi
        · rw [if_pos hr]; exact Or.inl ⟨_, rfl⟩
        · rw [if_neg hr]
          exact Or.inr ⟨_, _, rfl, by omega⟩
  · rw [if_neg hlt]; exact Or.inl ⟨_, rfl⟩

/-- With more fuel than the buffer has bytes the loops of `Write` return. -/
theorem writeLoop_some (n : Nat) : ∀ (fuel : Nat) (r : Renderer) (rs : List Nat) (sent : List Op),
    r.left.length < fuel → ∃ res, writeLoop n fuel r rs sent = some res := by
  intro fuel
  induction fuel with
  | zero => intro r rs sent h; exact absurd h (Nat.not_lt_zero _)
  | succ fuel ih =>
    intro r rs sent h
    rcases writeLoop_step n fuel r rs sent with ⟨res, hres, _⟩ | ⟨r', rs', sent', hstep, _, hlt, _⟩
    · exact ⟨res, hres⟩
    · rw [hstep]
      exact ih r' rs' sent' (by omega)

theorem writeLoop_ok (n : Nat) : ∀ (fuel : Nat) (r : Renderer) (rs : List Nat) (sent : List Op)
    (res : Result), StyleOK r.currentStyle → writeLoop n fuel r rs sent = some res →
    StyleOK res.r.currentStyle ∧ res.r.palette = r.palette := by
  intro fuel
  induction fuel with
  | zero => intro r rs sent res _ h; simp [writeLoop] at h
  | succ fuel ih =>
    intro r rs sent res hs h
    rcases writeLoop_step n fuel r rs sent with
      ⟨res', hres, hr⟩ | ⟨r', rs', sent', hstep, hpal, _, hst⟩
    · rw [hres] at h
      cases h
      rw [hr]
      exact ⟨hs, rfl⟩
    · rw [hstep] at h
      have hs' : StyleOK r'.currentStyle := by
        rcases hst with h1 | ⟨data, h1⟩
        · rw [h1]; exact hs
        · rw [h1]; exact handleCSI_ok _ _ _ hs
      obtain ⟨h1, h2⟩ := ih r' rs' sent' res hs' h
      exact ⟨h1, h2.trans hpal⟩

/-- C16: in every state reachable from a fresh renderer by calls of `Write`, with
any palette, the current style has only the keys bold, italic, underline and
color and maps none of them to the empty string (a nil value cannot be stored:
`setStyle` removes the key for it); the palette is the one given at the start.
Setting an attribute to nil or to the empty string removes its key, and setting
an attribute to any value leaves every other key as it is. -/
theorem C16_style_invariant (pal : Palette) (r : Renderer) (hr : Reachable pal r) :
    (StyleOK r.currentStyle ∧ r.palette = pal) ∧
    (∀ (S : Style) (name : String),
      (setStyle S name none).get name = none ∧
      (setStyle S name (some (.str ""))).get name = none ∧
      ∀ (value : Option Value) (k : String), k ≠ name →
        (setStyle S name value).get k = S.get k) := by
  constructor
  · induction hr with
    | fresh =>
      refine ⟨?_, rfl⟩
      intro kv hkv
      simp [NewRendererWithPalette] at hkv
    | write r p res _ hw ih =>
      obtain ⟨h1, h2⟩ := writeLoop_ok p.length ((r.left ++ p).length + 1)
        { r with left := r.left ++ p } [] [] res ih.1 hw
      exact ⟨h1, h2.trans ih.2⟩
  · intro S name
    exact ⟨(get_setStyle_remove S name).1, (get_setStyle_remove S name).2,
      fun value k hk => get_setStyle_ne S name k value hk⟩

theorem C16_style_invariant_witness :
    StyleOK (Renderer.mk [] [("underline", .bool true)] { DefaultPalette with Red := "" }).currentStyle
      ∧ (Renderer.mk [] [("underline", .bool true)] { DefaultPalette with Red := "" }).palette
        = { DefaultPalette with Red := "" } :=
  (C16_style_invariant { DefaultPalette with Red := "" }
    ⟨[], [("underline", .bool true)], { DefaultPalette with Red := "" }⟩
    (Reachable.write (NewRendererWithPalette { DefaultPalette with Red := "" })
      [0x1b, 0x5B, 0x34, 0x3B, 0x33, 0x31, 0x6D]
      ⟨⟨[], [("underline", .bool true)], { DefaultPalette with Red := "" }⟩, [], .ok 7⟩
      Reachable.fresh (by decide))).1

/-- C20: `Write` returns for every retained buffer and every chunk, and so does
`peekTill`. An iteration of the inner loop of `Write` returns or goes on with
a strictly shorter buffer, and an iteration of the loop of `peekTill` returns
or goes on at least one byte further, so one more iteration than the buffer
has bytes is never needed. -/
theorem C20_write_terminates :
    (∀ (r : Renderer) (p : List Nat), ∃ res, Write r p = some res) ∧
    (∀ (left : List Nat) (start lo hi : Nat), ∃ x, peekTill left start lo hi = some x) ∧
    (∀ (n fuel : Nat) (r : Renderer) (rs : List Nat) (sent : List Op),
      (∃ res, writeLoop n (fuel + 1) r rs sent = some res) ∨
      (∃ (r' : Renderer) (rs' : List Nat) (sent' : List Op),
        writeLoop n (fuel + 1) r rs sent = writeLoop n fuel r' rs' sent' ∧
        r'.left.length + 1 ≤ r.left.length)) ∧
    (∀ (left : List Nat) (start lo hi fuel : Nat) (rs : List Nat) (pb : Nat),
      (∃ x, peekTillLoop left start lo hi (fuel + 1) rs pb = some x) ∨
      (∃ (rs' : List Nat) (pb' : Nat),
        peekTillLoop left start lo hi (fuel + 1) rs pb
          = peekTillLoop left start lo hi fuel rs' pb' ∧ pb + 1 ≤ pb')) := by
  refine ⟨?_, peekTill_some, ?_, peekTillLoop_step⟩
  · intro r p
    exact writeLoop_some p.length _ _ [] [] (by simp)
  · intro n fuel r rs sent
    rcases writeLoop_step n fuel r rs sent with ⟨res, hres, _⟩ | ⟨r', rs', sent', hstep, _, hlt, _⟩
    · exact Or.inl ⟨res, hres⟩
    · exact Or.inr ⟨r', rs', sent', hstep, hlt⟩

end renderer
